import Mathlib

/-!
Verification of the frame reader/writer subsystem of the gitops-toolkit
repository (package `pkg/serializer/frame`).

Byte sequences are modelled as `List Nat` (one `Nat` per byte).  Go `int64`
counters are modelled as `Int` (the wrap-around at 2^63 is unreachable in
every property considered here).  Fallible operations return
`Except Err _` / `Option Err` values mirroring Go's `(value, error)`
convention.  All definitions are executable so that concrete witnesses can
be checked by `decide`.
-/

set_option linter.unusedVariables false

/-- A byte sequence (Go `[]byte`); each element is one byte. -/
abbrev Bytes := List Nat

/-- Error values produced by the frame package and its collaborators.
`frameSizeOverflowErr`/`frameCountOverflowErr` carry the limit reported by
`MakeFrameSizeOverflowError` / `MakeFrameCountOverflowError`
(`reader_limited.go`); `errClosedPipe` is `io.ErrClosedPipe`; `eof` is
`io.EOF`; `noProgress` is `io.ErrNoProgress`; `multi a b` models
`multierr.Combine` of two non-nil errors. -/
inductive Err where
  | eof
  | errClosedPipe
  | noProgress
  | shortWrite
  | frameSizeOverflowErr (maxFrameSize : Int)
  | frameCountOverflowErr (maxFrames : Int)
  | unsupportedFramingErr (id : Nat)
  | yamlSyntaxErr
  | jsonSyntaxErr
  | multi (a b : Err)
deriving DecidableEq, Repr

instance [DecidableEq ε] [DecidableEq α] : DecidableEq (Except ε α) := fun a b =>
  match a, b with
  | .ok x, .ok y =>
    if h : x = y then isTrue (by rw [h]) else isFalse (by simp [h])
  | .error x, .error y =>
    if h : x = y then isTrue (by rw [h]) else isFalse (by simp [h])
  | .ok _, .error _ => isFalse (by simp)
  | .error _, .ok _ => isFalse (by simp)

/-- Whitespace test used by Go's `bytes.TrimSpace` on ASCII input
(`unicode.IsSpace` for bytes below 0x80: TAB, LF, VT, FF, CR, SP).
Multi-byte Unicode whitespace is outside the byte-level model. -/
def isSpaceByte (c : Nat) : Bool :=
  c == 9 || c == 10 || c == 11 || c == 12 || c == 13 || c == 32

/-- Trim leading whitespace (left half of `bytes.TrimSpace`). -/
def trimLeftSpace (b : Bytes) : Bytes := b.dropWhile isSpaceByte

/-- Trim trailing whitespace (right half of `bytes.TrimSpace`). -/
def trimRightSpace (b : Bytes) : Bytes := (b.reverse.dropWhile isSpaceByte).reverse

/-- `bytes.TrimSpace`: trim whitespace from both ends. -/
def trimSpaceBytes (b : Bytes) : Bytes := trimRightSpace (trimLeftSpace b)

/-- The YAML document separator token `"---"` (`sanitize.go`). -/
def sepBytes : Bytes := [45, 45, 45]

/-- `bytes.TrimPrefix(frame, []byte("---"))` from `sanitizeYAMLFrame`. -/
def trimLeadingSep (b : Bytes) : Bytes :=
  if sepBytes.isPrefixOf b then b.drop 3 else b

/-- `bytes.TrimSuffix(frame, []byte("---"))` from `sanitizeYAMLFrame`. -/
def trimTrailingSep (b : Bytes) : Bytes :=
  if sepBytes.isSuffixOf b then b.take (b.length - 3) else b

/-- One round of the trimming loop in `sanitizeYAMLFrame` (`sanitize.go`
lines 41-52): trim spaces, then a leading `---`, then a trailing `---`. -/
def yamlTrimStep (b : Bytes) : Bytes :=
  trimTrailingSep (trimLeadingSep (trimSpaceBytes b))

/-- The fixed-point loop of `sanitizeYAMLFrame`: keep applying
`yamlTrimStep` as long as the frame keeps shrinking.  The fuel bound
`b.length + 1` always suffices because every continuing round shrinks the
frame by at least one byte. -/
def yamlTrimLoop : Nat → Bytes → Bytes
  | 0, b => b
  | fuel + 1, b =>
    if (yamlTrimStep b).length < b.length then yamlTrimLoop fuel (yamlTrimStep b)
    else yamlTrimStep b

/-- `sanitizeYAMLFrame` (`sanitize.go`): trim to a fixed point, then append
exactly one trailing newline if the result is non-empty. -/
def sanitizeYAMLFrame (b : Bytes) : Bytes :=
  let r := yamlTrimLoop (b.length + 1) b
  if r = [] then [] else r ++ [10]

/-- `sanitizeJSONFrame` (`sanitize.go`): trim surrounding whitespace. -/
def sanitizeJSONFrame (b : Bytes) : Bytes := trimSpaceBytes b

/-- `FramingType` (`content_type.go` / `part_008`): YAML, JSON, or any
other framing type (identified here by a numeric id instead of its
string name). -/
inductive FramingType where
  | yaml
  | json
  | other (id : Nat)
deriving DecidableEq, Repr

/-- `DefaultSanitizer.Sanitize` (`sanitize.go`): dispatch on the framing
type; unknown types pass through unchanged.  The Go error result is always
nil for `DefaultSanitizer`, so the error channel is omitted. -/
def sanitize : FramingType → Bytes → Bytes
  | .yaml, b => sanitizeYAMLFrame b
  | .json, b => sanitizeJSONFrame b
  | .other _, b => b


/-!
## BoundedSource: `ioLimitedReader` (`reader_limited.go`)

The underlying `io.Reader` is modelled by a script: a list of responses,
one per `Read` call.  A call requesting `n` bytes pops the next response
`(chunk, e)` and yields `(chunk.take n, e)`; an exhausted script behaves
like `bytes.Reader` at end-of-stream, answering `(0, io.EOF)` forever.
A request for `0` bytes returns `(0, nil)` without consuming a response.
-/

/-- One scripted `Read` call on the underlying byte source. -/
def srcRead (script : List (Bytes × Option Err)) (n : Nat) :
    Bytes × Option Err × List (Bytes × Option Err) :=
  if n = 0 then ([], none, script)
  else
    match script with
    | [] => ([], some .eof, [])
    | (chunk, e) :: rest => (chunk.take n, e, rest)

/-- State of an `ioLimitedReader` (`reader_limited.go` lines 72-77):
the underlying reader, the pending-byte buffer `buf` (a `bytes.Buffer`),
the cumulative counter `frameBytes` and the limit `maxFrameSize`. -/
structure LimitedReader where
  script : List (Bytes × Option Err)
  buf : Bytes
  frameBytes : Int
  maxFrameSize : Int
deriving DecidableEq, Repr

/-- `ioLimitedReader.Read` (`reader_limited.go` lines 79-127) for a caller
buffer of size `n`.  The first component of the result is the data the
caller consumes: the returned count is the count of the underlying source
read only, so the caller sees the first `chunk.length` bytes written into
its buffer (buffered bytes first, then source bytes). -/
def limitedRead (l : LimitedReader) (n : Nat) : Bytes × Option Err × LimitedReader :=
  if l.maxFrameSize < l.frameBytes then
    ([], some (.frameSizeOverflowErr l.maxFrameSize), l)
  else if l.frameBytes = l.maxFrameSize then
    let (tmp, e, rest) := srcRead l.script 1
    let l' : LimitedReader :=
      { l with script := rest, buf := l.buf ++ tmp,
               frameBytes := l.frameBytes + tmp.length }
    match e with
    | some err => ([], some err, l')
    | none =>
      if tmp.length = 0 then ([], some .noProgress, l')
      else ([], some (.frameSizeOverflowErr l.maxFrameSize), l')
  else
    let bytesLeft := l.maxFrameSize - l.frameBytes
    let bsize := (min (n : Int) bytesLeft).toNat
    let m := min l.buf.length bsize
    let fromBuf := l.buf.take m
    let (chunk, e, rest) := srcRead l.script (bsize - m)
    let l' : LimitedReader :=
      { l with buf := l.buf.drop m, script := rest,
               frameBytes := l.frameBytes + chunk.length }
    ((fromBuf ++ chunk).take chunk.length, e, l')

/-- `ioLimitedReader.ResetCounter` (`reader_limited.go` line 129):
`r.frameBytes = 0` — and nothing else. -/
def resetCounter (l : LimitedReader) : LimitedReader :=
  { l with frameBytes := 0 }

/-!
## High-level Reader (`part_009`) and Writer (`writer.go` / `part_003`)

The low-level Reader is abstracted by a state type `σ` together with a
step function `σ → (Except Err Bytes) × σ` (one low-level `ReadFrame`
call); the low-level Writer by `σ → Bytes → Option Err × σ` (one
low-level `WriteFrame` call).
-/

/-- State of a `highlevelReader` (`part_009`): the low-level reader state,
the framing type, `opts.MaxFrames`, `maxTotalFrames = opts.MaxFrames * 10`,
`successfulFrameCount` and `totalFrameCount`. -/
structure RState (σ : Type) where
  low : σ
  ct : FramingType
  maxFrames : Int
  maxTotal : Int
  success : Int
  total : Int
deriving Repr

/-- The recursion of `highlevelReader.readFrame` (`part_009` lines 73-103),
with the loop guard expressed through fuel: the wrapper `readFrameAux`
supplies `(maxTotal - total).toNat` as fuel, so `fuel = 0` holds exactly
when `totalFrameCount >= maxTotalFrames` and the recursive call's fuel
again equals `(maxTotal - total).toNat` for the updated state. -/
def readFrameAuxF (lowRead : σ → (Except Err Bytes) × σ) :
    Nat → RState σ → (Except Err Bytes) × RState σ
  | 0, st => (.error (.frameCountOverflowErr st.maxFrames), st)
  | fuel + 1, st =>
    let r := lowRead st.low
    let st1 : RState σ := { st with low := r.2, total := st.total + 1 }
    match r.1 with
    | .error e => (.error e, st1)
    | .ok frame =>
      let f := sanitize st.ct frame
      if f = [] then readFrameAuxF lowRead fuel st1
      else
        let st2 : RState σ := { st1 with success := st1.success + 1 }
        if st2.maxFrames < st2.success then
          (.error (.frameCountOverflowErr st2.maxFrames), st2)
        else (.ok f, st2)

/-- `highlevelReader.readFrame` (`part_009` lines 73-103). -/
def readFrameAux (lowRead : σ → (Except Err Bytes) × σ) (st : RState σ) :
    (Except Err Bytes) × RState σ :=
  readFrameAuxF lowRead (st.maxTotal - st.total).toNat st

/-- `highlevelReader.ReadFrame` (`part_009` lines 41-71, the mutex
generation): the outer `successfulFrameCount > opts.MaxFrames` check
followed by `readFrame`.  The mutex and tracing span are identity on the
sequential semantics. -/
def hlReadFrame (lowRead : σ → (Except Err Bytes) × σ) (st : RState σ) :
    (Except Err Bytes) × RState σ :=
  if st.maxFrames < st.success then
    (.error (.frameCountOverflowErr st.maxFrames), st)
  else readFrameAux lowRead st

/-- State of a `highlevelWriter` (`writer.go` lines 19-27): the low-level
writer state, the framing type, `opts.MaxFrameSize`, `opts.MaxFrames` and
the successful-frame counter `frameCount`. -/
structure WState (σ : Type) where
  low : σ
  ct : FramingType
  maxFrameSize : Int
  maxFrames : Int
  frameCount : Int
deriving Repr

/-- `highlevelWriter.WriteFrame` (`writer.go` lines 29-69, identical body
in `part_003`): size check on the raw frame, count check, sanitize,
empty-frame elision, low-level write, and counter increment on success. -/
def hlWriteFrame (lowWrite : σ → Bytes → Option Err × σ) (st : WState σ)
    (frame : Bytes) : Option Err × WState σ :=
  if st.maxFrameSize < (frame.length : Int) then
    (some (.frameSizeOverflowErr st.maxFrameSize), st)
  else if st.maxFrames ≤ st.frameCount then
    (some (.frameCountOverflowErr st.maxFrames), st)
  else
    let f := sanitize st.ct frame
    if f = [] then (none, st)
    else
      let r := lowWrite st.low f
      match r.1 with
      | none => (none, { st with low := r.2, frameCount := st.frameCount + 1 })
      | some err => (some err, { st with low := r.2 })

/-- Iterated `ReadFrame`: perform `k` high-level reads, collecting the
results (convenience for stating sequence properties). -/
def readSeq (lowRead : σ → (Except Err Bytes) × σ) :
    RState σ → Nat → List (Except Err Bytes) × RState σ
  | st, 0 => ([], st)
  | st, k + 1 =>
    let r := hlReadFrame lowRead st
    let rest := readSeq lowRead r.2 k
    (r.1 :: rest.1, rest.2)

/-- Iterated `WriteFrame` over a list of frames, collecting the per-call
results (like `WriteFrameList` in `part_002`, but without early stop, so
that each call's outcome is visible). -/
def writeSeq (lowWrite : σ → Bytes → Option Err × σ) :
    WState σ → List Bytes → List (Option Err) × WState σ
  | st, [] => ([], st)
  | st, f :: fs =>
    let r := hlWriteFrame lowWrite st f
    let rest := writeSeq lowWrite r.2 fs
    (r.1 :: rest.1, rest.2)

/-- Scripted low-level reader (`scriptedRead`): the low-level Reader is a
list of call results; an exhausted list keeps answering `io.EOF`, exactly
like the low-level readers at end-of-stream. -/
def scriptedRead : List (Except Err Bytes) → (Except Err Bytes) × List (Except Err Bytes)
  | [] => (.error .eof, [])
  | x :: xs => (x, xs)

/-!
## The closable resource (`closer.go`) and the closable generation of the
high-level Reader/Writer (`part_009` second half, `part_003`)
-/

/-- State of a `closableResourceImpl` (`closer.go` lines 35-42): the
`closed` flag, the `hasCloser` and `closeOnError` policies, and the result
the wrapped `Closer` would report (`underlyingCloseErr`). -/
structure CloseState where
  closed : Bool
  closeOnError : Bool
  hasCloser : Bool
  underlyingCloseErr : Option Err
deriving DecidableEq, Repr

/-- `multierr.Combine(closeErr, err)` for a non-nil `err` (`closer.go`
line 64): a nil close error leaves `err` unchanged, otherwise both are
combined. -/
def combineErr (closeErr : Option Err) (err : Err) : Err :=
  match closeErr with
  | none => err
  | some ce => .multi ce err

/-- `closableResourceImpl.close` (`closer.go` lines 70-90): a no-op when
already closed; otherwise mark closed and call the underlying `Close` only
when `hasCloser` holds. -/
def resClose (c : CloseState) : Option Err × CloseState :=
  if c.closed then (none, c)
  else
    let c' := { c with closed := true }
    if c.hasCloser then (c.underlyingCloseErr, c') else (none, c')

/-- `highlevelReader.ReadFrame` of the closable-resource generation
(`part_009` lines 141-167): `accessResource` returns `io.ErrClosedPipe`
when closed; otherwise it runs the same body as the mutex generation and,
on error with `closeOnError` set, closes the resource and combines the
close error with the original error. -/
def hlReadFrameCR (lowRead : σ → (Except Err Bytes) × σ) (c : CloseState)
    (st : RState σ) : (Except Err Bytes) × CloseState × RState σ :=
  if c.closed then (.error .errClosedPipe, c, st)
  else
    let r := hlReadFrame lowRead st
    match r.1 with
    | .ok f => (.ok f, c, r.2)
    | .error e =>
      if c.closeOnError then
        let cl := resClose c
        (.error (combineErr cl.1 e), cl.2, r.2)
      else (.error e, c, r.2)

/-- `highlevelWriter.WriteFrame` of the closable-resource generation
(`part_003` lines 25-62): the same body as `writer.go` wrapped in
`accessResource`. -/
def hlWriteFrameCR (lowWrite : σ → Bytes → Option Err × σ) (c : CloseState)
    (st : WState σ) (frame : Bytes) : Option Err × CloseState × WState σ :=
  if c.closed then (some .errClosedPipe, c, st)
  else
    let r := hlWriteFrame lowWrite st frame
    match r.1 with
    | none => (none, c, r.2)
    | some e =>
      if c.closeOnError then
        let cl := resClose c
        (some (combineErr cl.1 e), cl.2, r.2)
      else (some e, c, r.2)

/-!
## Low-level YAML reading (`reader_yaml.go` over the k8s.io/apimachinery
line splitter) and writing (`k8s.io/apimachinery` `json.YAMLFramer`)

The k8s line splitter is a vendored external collaborator; it is modelled
here at line granularity: `linesOf` reproduces `bufio.ReadLine` behaviour
(each line is normalized to end in a single `\n`, a `\r` directly before
the `\n` is dropped, a final non-terminated line is returned with a `\n`
appended) and `yamlSplitReadF` reproduces `yaml.YAMLReader.Read`
(accumulate lines until a line whose first three bytes are `---`; only
whitespace or a `#` comment may follow the separator token).

The splitter does not read the underlying stream directly: `newYAMLReader`
(`reader_yaml.go` lines 12-26) interposes an `IoLimitedReader` with budget
`maxFrameSize + 4` (the `"---\n"` separator also counts against the
budget), and `yamlReader.ReadFrame` resets the byte counter only after a
successful splitter read.  The budget accounting is threaded through the
splitter model: every byte of every line the splitter consumes counts
against the budget, matching `ioLimitedReader.Read`
(`reader_limited.go` lines 79-127) at line granularity — once the counter
exceeds the budget the error is sticky (lines 80-83), and completing a
line that runs past the budget fails after the one-byte look-ahead of
lines 85-105 confirms the overflow, leaving the counter at `budget + 1`.
(On that mid-line overflow the real stream position has advanced; the
model keeps the line list intact, which is observationally equal because
every subsequent read returns the sticky error without touching the
stream, the counter being reset only after a success.)
-/

/-- Helper of `linesOf`: `cur` is the reversed current line. -/
def linesAux : Bytes → Bytes → List Bytes
  | [], cur => if cur = [] then [] else [cur.reverse ++ [10]]
  | c :: t, cur =>
    if c = 10 then
      ((if cur.head? = some 13 then cur.tail else cur).reverse ++ [10]) :: linesAux t []
    else linesAux t (c :: cur)

/-- Split a byte stream into the lines the k8s `LineReader` would deliver. -/
def linesOf (b : Bytes) : List Bytes := linesAux b []

/-- The line form of the YAML document separator, `"---\n"`. -/
def sepLine : Bytes := [45, 45, 45, 10]

/-- `yaml.YAMLReader.Read` (modelled from the vendored
k8s.io/apimachinery/pkg/util/yaml splitter) driven through the
`IoLimitedReader` of `newYAMLReader`: consume lines, accumulating a
document buffer; a separator line flushes a non-empty buffer; end of input
flushes a final non-terminated document or reports `io.EOF`.  `used` is
the `IoLimitedReader` byte counter: a counter already past the budget is a
sticky `FrameSizeOverflowErr(budget)` (`reader_limited.go` lines 80-83),
and a line whose bytes would push the counter past the budget fails the
same way once the one-byte look-ahead (lines 85-105) confirms more data
exists, leaving the counter at `budget + 1`. -/
def yamlSplitReadF (budget : Int) : List Bytes → Int → Bytes →
    (Except Err Bytes) × List Bytes × Int
  | [], used, buffer =>
    if budget < used then (.error (.frameSizeOverflowErr budget), [], used)
    else if buffer = [] then (.error .eof, [], used)
    else (.ok buffer, [], used)
  | line :: rest, used, buffer =>
    if budget < used then
      (.error (.frameSizeOverflowErr budget), line :: rest, used)
    else if budget < used + (line.length : Int) then
      (.error (.frameSizeOverflowErr budget), line :: rest, budget + 1)
    else if line.take 3 = sepBytes then
      let trimmed := trimSpaceBytes (line.drop 3)
      if trimmed ≠ [] ∧ trimmed.head? ≠ some 35 then
        (.error .yamlSyntaxErr, rest, used + (line.length : Int))
      else if buffer ≠ [] then (.ok buffer, rest, used + (line.length : Int))
      else yamlSplitReadF budget rest (used + (line.length : Int)) buffer
    else yamlSplitReadF budget rest (used + (line.length : Int)) (buffer ++ line)

/-- `yamlReader.ReadFrame` (`reader_yaml.go` lines 42-64): read one raw
document from the splitter over the `IoLimitedReader` with budget
`maxFrameSize + 4` (line 18: the `"---\n"` separator also counts), reset
the byte counter once a good frame has been read (line 55), then enforce
the final `len(frame) > maxFrameSize` check (lines 57-61).  On a splitter
error the counter is not reset, so an overflow is sticky (lines 46-48). -/
def yamlLowReadAux (maxFrameSize : Int) (lines : List Bytes) (used : Int) :
    (Except Err Bytes) × (List Bytes × Int) :=
  match yamlSplitReadF (maxFrameSize + 4) lines used [] with
  | (.error e, rest) => (.error e, rest)
  | (.ok frame, rest) =>
    if maxFrameSize < (frame.length : Int) then
      (.error (.frameSizeOverflowErr maxFrameSize), (rest.1, 0))
    else (.ok frame, (rest.1, 0))

/-- `yamlLowReadAux` over the reader state: the remaining line list paired
with the `IoLimitedReader` byte counter. -/
def yamlLowRead (maxFrameSize : Int) (st : List Bytes × Int) :
    (Except Err Bytes) × (List Bytes × Int) :=
  yamlLowReadAux maxFrameSize st.1 st.2

/-- The YAML frame writer (`json.YAMLFramer.NewFrameWriter` of
k8s.io/apimachinery, used by `writer_factory.go`): every frame is
preceded by a `"---\n"` separator. -/
def yamlFrameWire (f : Bytes) : Bytes := sepBytes ++ [10] ++ f

/-- `delegatingWriter.WriteFrame` (`part_006`) for the YAML framer over an
in-memory sink that accepts every write in full, so `catchShortWrite`
never fires. -/
def sinkWriteYAML (sink : Bytes) (f : Bytes) : Option Err × Bytes :=
  (none, sink ++ yamlFrameWire f)

/-- `delegatingWriter.WriteFrame` for the JSON framer (`json.Framer`
writes frames verbatim, JSON being self-framing) over an in-memory sink
that accepts every write in full. -/
def sinkWriteJSON (sink : Bytes) (f : Bytes) : Option Err × Bytes :=
  (none, sink ++ f)

/-!
## Low-level JSON reading (`reader_streaming.go` over `encoding/json`)

`json.Framer.NewFrameReader` delivers one JSON value per read via an
`encoding/json` decoder.  It is modelled for object-valued frames: skip
inter-frame whitespace, then scan one brace-balanced object, honouring
strings and escapes.
-/

/-- Scanner for one JSON object: `depth` open braces are pending, `inStr`
and `esc` track string-literal state, `acc` is the consumed input. -/
def scanObjAux : Bytes → Nat → Bool → Bool → Bytes → Option (Bytes × Bytes)
  | [], _, _, _, _ => none
  | c :: rest, depth, inStr, esc, acc =>
    if inStr then
      if esc then scanObjAux rest depth true false (acc ++ [c])
      else if c = 92 then scanObjAux rest depth true true (acc ++ [c])
      else if c = 34 then scanObjAux rest depth false false (acc ++ [c])
      else scanObjAux rest depth true false (acc ++ [c])
    else if c = 34 then scanObjAux rest depth true false (acc ++ [c])
    else if c = 123 then scanObjAux rest (depth + 1) false false (acc ++ [c])
    else if c = 125 then
      if depth = 1 then some (acc ++ [c], rest)
      else
        match depth with
        | 0 => none
        | d + 1 => scanObjAux rest d false false (acc ++ [c])
    else scanObjAux rest depth false false (acc ++ [c])

/-- Scan one JSON object from the head of the input: the input must start
with `{`; the result is the object's exact bytes and the remainder. -/
def scanObj : Bytes → Option (Bytes × Bytes)
  | c :: rest => if c = 123 then scanObjAux rest 1 false false [123] else none
  | [] => none

/-- JSON inter-value whitespace accepted by `encoding/json`. -/
def isJsonWsp (c : Nat) : Bool := c == 32 || c == 9 || c == 10 || c == 13

/-- `streamingReader.ReadFrame` (`reader_streaming.go`) over the modelled
JSON frame reader: whitespace then end of input is `io.EOF`; otherwise one
object is scanned and the `streaming.ErrObjectTooLarge` →
`FrameSizeOverflowErr` translation is applied via the final size check. -/
def jsonLowRead (maxFrameSize : Int) (st : Bytes) : (Except Err Bytes) × Bytes :=
  let s := st.dropWhile isJsonWsp
  match scanObj s with
  | some (v, rest) =>
    if maxFrameSize < (v.length : Int) then
      (.error (.frameSizeOverflowErr maxFrameSize), rest)
    else (.ok v, rest)
  | none => if s = [] then (.error .eof, []) else (.error .jsonSyntaxErr, s)

/-!
## Option construction (`part_005`)
-/

/-- A `Sanitizer` option value: the built-in `DefaultSanitizer{}` or a
caller-supplied custom implementation (identified by a number). -/
inductive SanitizerV where
  | defaultSan
  | custom (id : Nat)
deriving DecidableEq, Repr

/-- `tracing.TracerOptions` (`part_012`), with the string name and the
opaque provider/tracer values replaced by numeric ids (0 = empty name,
`none` = nil pointer). -/
structure TracerOptionsV where
  name : Nat
  useGlobal : Option Bool
  provider : Option Nat
  tracer : Option Nat
deriving DecidableEq, Repr

/-- `TracerOptions.ApplyToTracer` (`part_012`): each field overrides the
target only when set. -/
def applyToTracer (o target : TracerOptionsV) : TracerOptionsV :=
  { name := if o.name ≠ 0 then o.name else target.name,
    useGlobal := if o.useGlobal.isSome then o.useGlobal else target.useGlobal,
    provider := if o.provider.isSome then o.provider else target.provider,
    tracer := if o.tracer.isSome then o.tracer else target.tracer }

/-- `ReaderWriterOptions` (`part_005` lines 151-164): `MaxFrameSize`,
`MaxFrames`, `Sanitizer` (`none` = nil interface) and the embedded
`Tracer` options. -/
structure ReaderWriterOptionsV where
  maxFrameSize : Int
  maxFrames : Int
  sanitizer : Option SanitizerV
  tracer : TracerOptionsV
deriving DecidableEq, Repr

/-- `ReaderWriterOptions.applyCommon` (`part_005` lines 170-178): a
non-zero `MaxFrameSize` / `MaxFrames` overrides the target, and the tracer
options are applied — the `Sanitizer` field is not copied (the source has
no statement for it). -/
def applyCommon (o target : ReaderWriterOptionsV) : ReaderWriterOptionsV :=
  { target with
    maxFrameSize := if o.maxFrameSize ≠ 0 then o.maxFrameSize else target.maxFrameSize,
    maxFrames := if o.maxFrames ≠ 0 then o.maxFrames else target.maxFrames,
    tracer := applyToTracer o.tracer target.tracer }

/-- `defaultReaderOpts` (`part_005` lines 50-62): 16 MiB `MaxFrameSize`
(`DefaultMaxFrameSize`, `reader_limited.go` line 11), 1024 `MaxFrames`
(`DefaultMaxFrames`, `part_005` line 43), the built-in `DefaultSanitizer`,
and the reader tracer name (name id 1 stands for `"frame.Reader"`). -/
def defaultReaderOpts : ReaderWriterOptionsV :=
  { maxFrameSize := 16 * 1024 * 1024, maxFrames := 1024,
    sanitizer := some .defaultSan,
    tracer := { name := 1, useGlobal := some true, provider := none, tracer := none } }

/-- `ReaderOptions.ApplyOptions` (`part_005` lines 84-89): apply the
caller-supplied options in order over the target (each option acting
through `applyCommon`). -/
def applyOptions (target : ReaderWriterOptionsV) (opts : List ReaderWriterOptionsV) :
    ReaderWriterOptionsV :=
  opts.foldl (fun t o => applyCommon o t) target

/-!
## Initial states and wires
-/

/-- `newHighlevelReader` (`part_009` lines 12-20): fresh counters and
`maxTotalFrames = opts.MaxFrames * 10`. -/
def initRState (low : σ) (ct : FramingType) (maxFrames : Int) : RState σ :=
  { low := low, ct := ct, maxFrames := maxFrames, maxTotal := maxFrames * 10,
    success := 0, total := 0 }

/-- `newHighlevelWriter` (`writer.go` lines 10-17): fresh counter. -/
def initWState (low : σ) (ct : FramingType) (maxFrames maxFrameSize : Int) : WState σ :=
  { low := low, ct := ct, maxFrameSize := maxFrameSize, maxFrames := maxFrames,
    frameCount := 0 }

/-- The byte stream a YAML Writer produces for a list of already-sanitized
frames: each frame preceded by `"---\n"`. -/
def yamlWireOf : List Bytes → Bytes
  | [] => []
  | s :: rest => yamlFrameWire s ++ yamlWireOf rest

/-- The byte stream a JSON Writer produces for a list of already-sanitized
frames: plain concatenation. -/
def jsonWireOf : List Bytes → Bytes
  | [] => []
  | s :: rest => s ++ jsonWireOf rest

/-- The line list the splitter sees for a list of sanitized YAML documents
once the leading separator has been consumed: the documents' lines with a
separator line between consecutive documents. -/
def yamlDocLines : List Bytes → List Bytes
  | [] => []
  | [s] => linesOf s
  | s :: s' :: rest => linesOf s ++ sepLine :: yamlDocLines (s' :: rest)

/-- Default `MaxFrameSize`: 16 MiB. -/
def defMaxFrameSize : Int := 16 * 1024 * 1024

/-- Default `MaxFrames`: 1024. -/
def defMaxFrames : Int := 1024

/-- A single-line YAML document within 4 bytes of the default
`MaxFrameSize` (length `2^24 - 3` = 16777213 bytes, newline included): it
passes both size checks of the YAML Reader, but reading it as the first
document together with its leading `"---\n"` separator and the separator
line terminating it needs `16777221` bytes — past the `IoLimitedReader`
budget of `maxFrameSize + 4 = 16777220`. -/
def bigDoc : Bytes := List.replicate (2 ^ 24 - 4) 97 ++ [10]

/-- Well-formedness of a frame for the YAML round trip, written for the
raw frame `f` with `s := sanitize .yaml f`: the raw frame passes the
Writer's size check, the sanitized document passes the Reader's final size
check, sanitization is non-empty (the frame survives elision), the
document contains no carriage return (the line splitter would drop a `\r`
before `\n`), and no line of the document starts with the `---` token
(the splitter would treat it as a document separator). -/
def yamlFrameOk (f : Bytes) : Prop :=
  (f.length : Int) ≤ defMaxFrameSize ∧
  ((sanitize .yaml f).length : Int) ≤ defMaxFrameSize ∧
  sanitize .yaml f ≠ [] ∧
  13 ∉ sanitize .yaml f ∧
  ∀ l ∈ linesOf (sanitize .yaml f), l.take 3 ≠ sepBytes

instance : DecidablePred yamlFrameOk := fun f => by
  unfold yamlFrameOk; infer_instance

/-- Well-formedness of a frame for the JSON round trip: the raw frame
passes the Writer's size check and its sanitized form is one complete
brace-balanced JSON object (the scanner consumes it exactly). -/
def jsonFrameOk (f : Bytes) : Prop :=
  (f.length : Int) ≤ defMaxFrameSize ∧
  scanObj (sanitize .json f) = some (sanitize .json f, [])

instance : DecidablePred jsonFrameOk := fun f => by
  unfold jsonFrameOk; infer_instance

/-- The YAML half of the round-trip property at a given frame list:
writing every frame of `F` through the high-level YAML Writer (default
options) succeeds, and reading the produced byte stream back through the
high-level YAML Reader (default options) returns exactly the sanitized
frames of `F`, in order, followed by `io.EOF`. -/
def YamlRoundTrip (F : List Bytes) : Prop :=
  (writeSeq sinkWriteYAML (initWState [] .yaml defMaxFrames defMaxFrameSize) F).1 =
    List.replicate F.length none ∧
  (writeSeq sinkWriteYAML (initWState [] .yaml defMaxFrames defMaxFrameSize) F).2.low =
    yamlWireOf (F.map (sanitize .yaml)) ∧
  (readSeq (yamlLowRead defMaxFrameSize)
      (initRState (linesOf (yamlWireOf (F.map (sanitize .yaml))), 0) .yaml defMaxFrames)
      F.length).1 =
    F.map (fun f => .ok (sanitize .yaml f)) ∧
  (hlReadFrame (yamlLowRead defMaxFrameSize)
      (readSeq (yamlLowRead defMaxFrameSize)
        (initRState (linesOf (yamlWireOf (F.map (sanitize .yaml))), 0) .yaml defMaxFrames)
        F.length).2).1 = .error .eof

/-- The JSON half of the round-trip property at a given frame list. -/
def JsonRoundTrip (F : List Bytes) : Prop :=
  (writeSeq sinkWriteJSON (initWState [] .json defMaxFrames defMaxFrameSize) F).1 =
    List.replicate F.length none ∧
  (writeSeq sinkWriteJSON (initWState [] .json defMaxFrames defMaxFrameSize) F).2.low =
    jsonWireOf (F.map (sanitize .json)) ∧
  (readSeq (jsonLowRead defMaxFrameSize)
      (initRState (jsonWireOf (F.map (sanitize .json))) .json defMaxFrames)
      F.length).1 =
    F.map (fun f => .ok (sanitize .json f)) ∧
  (hlReadFrame (jsonLowRead defMaxFrameSize)
      (readSeq (jsonLowRead defMaxFrameSize)
        (initRState (jsonWireOf (F.map (sanitize .json))) .json defMaxFrames)
        F.length).2).1 = .error .eof

instance (F : List Bytes) : Decidable (YamlRoundTrip F) := by
  unfold YamlRoundTrip; infer_instance

instance (F : List Bytes) : Decidable (JsonRoundTrip F) := by
  unfold JsonRoundTrip; infer_instance


/-!
## Sanitizer lemmas
-/

theorem dropWhile_self_of_head (p : Nat → Bool) (a : Nat) (l : Bytes)
    (h : p a = false) : (a :: l).dropWhile p = a :: l := by
  simp [List.dropWhile_cons, h]

theorem length_dropWhile_le' (p : Nat → Bool) (l : Bytes) :
    (l.dropWhile p).length ≤ l.length := by
  induction l with
  | nil => simp
  | cons a t ih =>
    rw [List.dropWhile_cons]
    split
    · simp; omega
    · simp

theorem dropWhile_head_false (p : Nat → Bool) (l : Bytes) (a : Nat) (t : Bytes)
    (h : l.dropWhile p = a :: t) : p a = false := by
  induction l with
  | nil => simp at h
  | cons b l ih =>
    by_cases hb : p b
    · exact ih (by simpa [List.dropWhile_cons, hb] using h)
    · rw [List.dropWhile_cons] at h
      simp [hb] at h
      simpa [h.1] using hb

theorem dropWhile_idem (p : Nat → Bool) (l : Bytes) :
    (l.dropWhile p).dropWhile p = l.dropWhile p := by
  match h : l.dropWhile p with
  | [] => simp
  | a :: t => rw [dropWhile_self_of_head p a t (dropWhile_head_false p l a t h)]

theorem dropWhile_eq_of_length (p : Nat → Bool) (l : Bytes)
    (h : (l.dropWhile p).length = l.length) : l.dropWhile p = l := by
  induction l with
  | nil => simp
  | cons a t ih =>
    by_cases ha : p a
    · rw [List.dropWhile_cons] at h
      simp only [ha, if_true] at h
      have := length_dropWhile_le' p t
      simp at h
      omega
    · simp [List.dropWhile_cons, ha]

theorem trimLeftSpace_length_le (b : Bytes) :
    (trimLeftSpace b).length ≤ b.length := length_dropWhile_le' isSpaceByte b

theorem trimRightSpace_length_le (b : Bytes) :
    (trimRightSpace b).length ≤ b.length := by
  have := length_dropWhile_le' isSpaceByte b.reverse
  simpa [trimRightSpace] using this

theorem trimSpaceBytes_length_le (b : Bytes) :
    (trimSpaceBytes b).length ≤ b.length :=
  le_trans (trimRightSpace_length_le _) (trimLeftSpace_length_le b)

theorem trimLeftSpace_eq_of_length (b : Bytes)
    (h : (trimLeftSpace b).length = b.length) : trimLeftSpace b = b :=
  dropWhile_eq_of_length isSpaceByte b h

theorem trimRightSpace_eq_of_length (b : Bytes)
    (h : (trimRightSpace b).length = b.length) : trimRightSpace b = b := by
  have h2 : (b.reverse.dropWhile isSpaceByte).length = b.reverse.length := by
    simpa [trimRightSpace] using h
  have := dropWhile_eq_of_length isSpaceByte b.reverse h2
  simp only [trimRightSpace, this, List.reverse_reverse]

theorem trimSpaceBytes_eq_of_length (b : Bytes)
    (h : (trimSpaceBytes b).length = b.length) : trimSpaceBytes b = b := by
  have h1 : (trimLeftSpace b).length = b.length := by
    have j1 := trimRightSpace_length_le (trimLeftSpace b)
    have j2 := trimLeftSpace_length_le b
    unfold trimSpaceBytes at h
    omega
  have e1 : trimLeftSpace b = b := trimLeftSpace_eq_of_length b h1
  have h2 : (trimRightSpace b).length = b.length := by
    unfold trimSpaceBytes at h
    rwa [e1] at h
  unfold trimSpaceBytes
  rw [e1, trimRightSpace_eq_of_length b h2]

theorem trimLeadingSep_length_le (b : Bytes) :
    (trimLeadingSep b).length ≤ b.length := by
  unfold trimLeadingSep
  split
  · simp
  · exact le_refl _

theorem trimTrailingSep_length_le (b : Bytes) :
    (trimTrailingSep b).length ≤ b.length := by
  unfold trimTrailingSep
  split
  · simp
  · exact le_refl _

theorem trimLeadingSep_eq_of_length (b : Bytes)
    (h : (trimLeadingSep b).length = b.length) : trimLeadingSep b = b := by
  unfold trimLeadingSep at h ⊢
  split at h
  · rename_i hp
    rw [List.isPrefixOf_iff_prefix] at hp
    have h3 : 3 ≤ b.length := by simpa [sepBytes] using hp.length_le
    simp at h
    omega
  · rename_i hp
    simp [hp]

theorem trimTrailingSep_eq_of_length (b : Bytes)
    (h : (trimTrailingSep b).length = b.length) : trimTrailingSep b = b := by
  unfold trimTrailingSep at h ⊢
  split at h
  · rename_i hp
    rw [List.isSuffixOf_iff_suffix] at hp
    have h3 : 3 ≤ b.length := by simpa [sepBytes] using hp.length_le
    simp at h
    omega
  · rename_i hp
    simp [hp]

theorem yamlTrimStep_length_le (b : Bytes) :
    (yamlTrimStep b).length ≤ b.length :=
  le_trans (trimTrailingSep_length_le _)
    (le_trans (trimLeadingSep_length_le _) (trimSpaceBytes_length_le b))

theorem yamlTrimStep_eq_of_length (b : Bytes)
    (h : (yamlTrimStep b).length = b.length) : yamlTrimStep b = b := by
  have l1 := trimSpaceBytes_length_le b
  have l2 := trimLeadingSep_length_le (trimSpaceBytes b)
  have l3 := trimTrailingSep_length_le (trimLeadingSep (trimSpaceBytes b))
  unfold yamlTrimStep at h ⊢
  have e1 : trimSpaceBytes b = b := trimSpaceBytes_eq_of_length b (by omega)
  rw [e1] at h l2 l3 ⊢
  have e2 : trimLeadingSep b = b := trimLeadingSep_eq_of_length b (by omega)
  rw [e2] at h l3 ⊢
  exact trimTrailingSep_eq_of_length b (by omega)

theorem yamlTrimLoop_fix : ∀ (fuel : Nat) (b : Bytes), b.length < fuel →
    yamlTrimStep (yamlTrimLoop fuel b) = yamlTrimLoop fuel b := by
  intro fuel
  induction fuel with
  | zero => intro b h; omega
  | succ f ih =>
    intro b h
    unfold yamlTrimLoop
    split
    · rename_i hlt
      exact ih (yamlTrimStep b) (by omega)
    · rename_i hge
      have hle := yamlTrimStep_length_le b
      have e := yamlTrimStep_eq_of_length b (by omega)
      rw [e]
      exact e

theorem yamlTrimLoop_of_fix (fuel : Nat) (b : Bytes)
    (h : yamlTrimStep b = b) : yamlTrimLoop fuel b = b := by
  cases fuel with
  | zero => rfl
  | succ f =>
    unfold yamlTrimLoop
    rw [h]
    simp

theorem yamlTrimStep_fix_parts (r : Bytes) (h : yamlTrimStep r = r) :
    trimSpaceBytes r = r ∧ trimLeadingSep r = r ∧ trimTrailingSep r = r := by
  have l1 := trimSpaceBytes_length_le r
  have l2 := trimLeadingSep_length_le (trimSpaceBytes r)
  have l3 := trimTrailingSep_length_le (trimLeadingSep (trimSpaceBytes r))
  have hlen : (yamlTrimStep r).length = r.length := by rw [h]
  unfold yamlTrimStep at hlen
  have e1 : trimSpaceBytes r = r := trimSpaceBytes_eq_of_length r (by omega)
  rw [e1] at hlen l2 l3
  have e2 : trimLeadingSep r = r := trimLeadingSep_eq_of_length r (by omega)
  rw [e2] at hlen l3
  have e3 : trimTrailingSep r = r := trimTrailingSep_eq_of_length r (by omega)
  exact ⟨e1, e2, e3⟩

theorem trimSpaceBytes_fix_parts (r : Bytes) (h : trimSpaceBytes r = r) :
    trimLeftSpace r = r ∧ trimRightSpace r = r := by
  have l1 := trimLeftSpace_length_le r
  have l2 := trimRightSpace_length_le (trimLeftSpace r)
  have hlen : (trimSpaceBytes r).length = r.length := by rw [h]
  unfold trimSpaceBytes at hlen
  have e1 : trimLeftSpace r = r := trimLeftSpace_eq_of_length r (by omega)
  rw [e1] at hlen
  have e2 : trimRightSpace r = r := trimRightSpace_eq_of_length r (by omega)
  exact ⟨e1, e2⟩

theorem trimRightSpace_append_nl (r : Bytes) (h : trimRightSpace r = r) :
    trimRightSpace (r ++ [10]) = r := by
  unfold trimRightSpace at h ⊢
  rw [List.reverse_append]
  simp only [List.reverse_cons, List.reverse_nil, List.nil_append, List.cons_append,
    List.nil_append]
  rw [List.dropWhile_cons]
  norm_num [isSpaceByte]
  exact h

theorem trimLeftSpace_of_head_not (a : Nat) (t : Bytes) (h : isSpaceByte a = false) :
    trimLeftSpace (a :: t) = a :: t := dropWhile_self_of_head isSpaceByte a t h

theorem trimLeftSpace_head_not (r : Bytes) (hr : trimLeftSpace r = r)
    (hne : r ≠ []) : isSpaceByte (r.headI) = false := by
  match r, hne with
  | a :: t, _ =>
    have := dropWhile_head_false isSpaceByte (a :: t) a t hr
    simpa using this

theorem trimSpaceBytes_append_nl (r : Bytes) (h : trimSpaceBytes r = r)
    (hne : r ≠ []) : trimSpaceBytes (r ++ [10]) = r := by
  obtain ⟨hL, hR⟩ := trimSpaceBytes_fix_parts r h
  unfold trimSpaceBytes
  have hhead := trimLeftSpace_head_not r hL hne
  match r, hne with
  | a :: t, _ =>
    have e : trimLeftSpace (a :: t ++ [10]) = a :: t ++ [10] := by
      apply trimLeftSpace_of_head_not
      simpa using hhead
    rw [List.cons_append] at e ⊢
    rw [e]
    exact trimRightSpace_append_nl (a :: t) hR

theorem yamlTrimStep_append_nl (r : Bytes) (h : yamlTrimStep r = r)
    (hne : r ≠ []) : yamlTrimStep (r ++ [10]) = r := by
  obtain ⟨h1, h2, h3⟩ := yamlTrimStep_fix_parts r h
  unfold yamlTrimStep
  rw [trimSpaceBytes_append_nl r h1 hne, h2, h3]

/-- The result of the YAML trimming loop (run with sufficient fuel) is a
fixed point of the trimming step; this is the `r` to which
`sanitizeYAMLFrame` appends the newline. -/
theorem sanitizeYAML_eq_core (b : Bytes) :
    sanitizeYAMLFrame b =
      (if yamlTrimLoop (b.length + 1) b = [] then []
       else yamlTrimLoop (b.length + 1) b ++ [10]) := rfl

theorem sanitizeYAMLFrame_idem (b : Bytes) :
    sanitizeYAMLFrame (sanitizeYAMLFrame b) = sanitizeYAMLFrame b := by
  have hfix : yamlTrimStep (yamlTrimLoop (b.length + 1) b) =
      yamlTrimLoop (b.length + 1) b :=
    yamlTrimLoop_fix (b.length + 1) b (by omega)
  rw [sanitizeYAML_eq_core b]
  by_cases hz : yamlTrimLoop (b.length + 1) b = []
  · simp only [hz, if_true]
    show sanitizeYAMLFrame [] = []
    decide
  · simp only [hz, if_false]
    set r := yamlTrimLoop (b.length + 1) b with hr
    have hstep : yamlTrimStep (r ++ [10]) = r := yamlTrimStep_append_nl r hfix hz
    have hall : ∀ f : Nat, yamlTrimLoop (f + 1) (r ++ [10]) = r := by
      intro f
      unfold yamlTrimLoop
      rw [hstep]
      rw [if_pos (by simp)]
      exact yamlTrimLoop_of_fix f r hfix
    rw [sanitizeYAML_eq_core (r ++ [10])]
    rw [hall]
    simp [hz]

theorem trimSpaceBytes_idem (b : Bytes) :
    trimSpaceBytes (trimSpaceBytes b) = trimSpaceBytes b := by
  unfold trimSpaceBytes
  set y := trimLeftSpace b with hy
  have hRidem : ∀ x : Bytes, trimRightSpace (trimRightSpace x) = trimRightSpace x := by
    intro x
    unfold trimRightSpace
    rw [List.reverse_reverse, dropWhile_idem]
  by_cases hz : trimRightSpace y = []
  · rw [hz]
    show trimRightSpace (trimLeftSpace []) = []
    simp [trimLeftSpace, trimRightSpace]
  · have hLfix : trimLeftSpace (trimRightSpace y) = trimRightSpace y := by
      match hm : trimRightSpace y, hz with
      | a :: t, _ =>
        apply trimLeftSpace_of_head_not
        have hyhead : ∀ u, y = a :: u → isSpaceByte a = false := by
          intro u hu
          by_cases hyy : y.dropWhile isSpaceByte = y
          · have := dropWhile_head_false isSpaceByte y a u (by rw [hyy, hu])
            exact this
          · exfalso
            apply hyy
            rw [hy]
            exact dropWhile_idem isSpaceByte b
        have hpre : trimRightSpace y <+: y := by
          unfold trimRightSpace
          refine ⟨(y.reverse.takeWhile isSpaceByte).reverse, ?_⟩
          rw [← List.reverse_append, List.takeWhile_append_dropWhile, List.reverse_reverse]
        rw [hm] at hpre
        obtain ⟨w, hw⟩ := hpre
        exact hyhead (t ++ w) hw.symm
    rw [hLfix, hRidem]

theorem sanitizeJSONFrame_idem (b : Bytes) :
    sanitizeJSONFrame (sanitizeJSONFrame b) = sanitizeJSONFrame b :=
  trimSpaceBytes_idem b

/-- Idempotence of the sanitizer for every framing type. -/
theorem sanitize_idem (ct : FramingType) (b : Bytes) :
    sanitize ct (sanitize ct b) = sanitize ct b := by
  cases ct with
  | yaml => exact sanitizeYAMLFrame_idem b
  | json => exact sanitizeJSONFrame_idem b
  | other id => rfl

/-!
## High-level Reader step lemmas
-/

theorem readFrameAux_fuel_pos (lowRead : σ → (Except Err Bytes) × σ)
    (st : RState σ) (h : st.total < st.maxTotal) :
    readFrameAux lowRead st =
      readFrameAuxF lowRead ((st.maxTotal - st.total - 1).toNat + 1) st := by
  unfold readFrameAux
  congr 1
  omega

theorem hlReadFrame_ok_step (lowRead : σ → (Except Err Bytes) × σ)
    (st : RState σ) (fr : Bytes) (low' : σ)
    (hlow : lowRead st.low = (.ok fr, low'))
    (hsan : sanitize st.ct fr ≠ [])
    (htotal : st.total < st.maxTotal)
    (hsucc : st.success + 1 ≤ st.maxFrames) :
    hlReadFrame lowRead st = (.ok (sanitize st.ct fr),
      { st with low := low', total := st.total + 1, success := st.success + 1 }) := by
  unfold hlReadFrame
  rw [if_neg (by omega)]
  rw [readFrameAux_fuel_pos lowRead st htotal]
  unfold readFrameAuxF
  rw [hlow]
  simp only [hsan, if_neg, if_false]
  rw [if_neg (by omega)]

theorem hlReadFrame_err_step (lowRead : σ → (Except Err Bytes) × σ)
    (st : RState σ) (e : Err) (low' : σ)
    (hlow : lowRead st.low = (.error e, low'))
    (htotal : st.total < st.maxTotal)
    (hsucc : st.success ≤ st.maxFrames) :
    hlReadFrame lowRead st = (.error e,
      { st with low := low', total := st.total + 1 }) := by
  unfold hlReadFrame
  rw [if_neg (by omega)]
  rw [readFrameAux_fuel_pos lowRead st htotal]
  unfold readFrameAuxF
  rw [hlow]

theorem hlReadFrame_overflow_step (lowRead : σ → (Except Err Bytes) × σ)
    (st : RState σ) (fr : Bytes) (low' : σ)
    (hlow : lowRead st.low = (.ok fr, low'))
    (hsan : sanitize st.ct fr ≠ [])
    (htotal : st.total < st.maxTotal)
    (hsucc : st.success = st.maxFrames) :
    hlReadFrame lowRead st = (.error (.frameCountOverflowErr st.maxFrames),
      { st with low := low', total := st.total + 1, success := st.success + 1 }) := by
  unfold hlReadFrame
  rw [if_neg (by omega)]
  rw [readFrameAux_fuel_pos lowRead st htotal]
  unfold readFrameAuxF
  rw [hlow]
  simp only [hsan, if_neg, if_false]
  rw [if_pos (by omega)]

/-- Counter invariants of the `readFrame` recursion: the total counter
never exceeds `maxTotal`, the success counter never exceeds
`maxFrames + 1`, and it is at most `maxFrames` whenever a frame is
actually returned. -/
theorem readFrameAuxF_inv (lowRead : σ → (Except Err Bytes) × σ) :
    ∀ (fuel : Nat) (st : RState σ),
    (fuel : Int) ≤ st.maxTotal - st.total →
    st.success ≤ st.maxFrames →
    (readFrameAuxF lowRead fuel st).2.total ≤ st.maxTotal ∧
    (readFrameAuxF lowRead fuel st).2.success ≤ st.maxFrames + 1 ∧
    (∀ f, (readFrameAuxF lowRead fuel st).1 = .ok f →
      (readFrameAuxF lowRead fuel st).2.success ≤ st.maxFrames) ∧
    (readFrameAuxF lowRead fuel st).2.maxTotal = st.maxTotal ∧
    (readFrameAuxF lowRead fuel st).2.maxFrames = st.maxFrames := by
  intro fuel
  induction fuel with
  | zero =>
    intro st hf hs
    unfold readFrameAuxF
    exact ⟨(by omega : st.total ≤ st.maxTotal),
      (by omega : st.success ≤ st.maxFrames + 1),
      fun f h => absurd h (by simp), rfl, rfl⟩
  | succ fu ih =>
    intro st hf hs
    unfold readFrameAuxF
    rcases hl : lowRead st.low with ⟨r1, low'⟩
    cases r1 with
    | error e =>
      simp only [hl]
      exact ⟨(by omega : st.total + 1 ≤ st.maxTotal),
        (by omega : st.success ≤ st.maxFrames + 1),
        fun f h => absurd h (by simp), trivial, trivial⟩
    | ok frame =>
      simp only [hl]
      by_cases hsan : sanitize st.ct frame = []
      · rw [if_pos hsan]
        have := ih { st with low := low', total := st.total + 1 }
          (by simp only [RState.mk.injEq]; omega : (fu : Int) ≤ _)
          (hs : _ ≤ _)
        simpa using this
      · rw [if_neg hsan]
        by_cases hover : st.maxFrames < st.success + 1
        · rw [if_pos (hover : _ < _)]
          exact ⟨(by omega : st.total + 1 ≤ st.maxTotal),
            (by omega : st.success + 1 ≤ st.maxFrames + 1),
            fun f h => absurd h (by simp), rfl, rfl⟩
        · rw [if_neg (hover : ¬ _ < _)]
          exact ⟨(by omega : st.total + 1 ≤ st.maxTotal),
            (by omega : st.success + 1 ≤ st.maxFrames + 1),
            fun f h => (by omega : st.success + 1 ≤ st.maxFrames), rfl, rfl⟩

/-- Counter invariants at the `ReadFrame` level (mutex generation): if the
state satisfies the invariant before the call, it satisfies it after. -/
theorem hlReadFrame_inv (lowRead : σ → (Except Err Bytes) × σ) (st : RState σ)
    (hTot : st.total ≤ st.maxTotal)
    (hSuc : st.success ≤ st.maxFrames + 1) :
    (hlReadFrame lowRead st).2.total ≤ st.maxTotal ∧
    (hlReadFrame lowRead st).2.success ≤ st.maxFrames + 1 ∧
    (∀ f, (hlReadFrame lowRead st).1 = .ok f →
      (hlReadFrame lowRead st).2.success ≤ st.maxFrames) ∧
    (hlReadFrame lowRead st).2.maxTotal = st.maxTotal ∧
    (hlReadFrame lowRead st).2.maxFrames = st.maxFrames := by
  unfold hlReadFrame
  by_cases hover : st.maxFrames < st.success
  · rw [if_pos hover]
    exact ⟨hTot, hSuc, fun f h => absurd h (by simp), rfl, rfl⟩
  · rw [if_neg hover]
    unfold readFrameAux
    exact readFrameAuxF_inv lowRead (st.maxTotal - st.total).toNat st (by omega) (by omega)

/-- Reading from a low-level stream of frames that all sanitize to empty:
as long as the total-attempt guard is not hit, the loop skips them all and
reports the low-level end-of-stream. -/
theorem readFrameAuxF_all_empty (ct : FramingType) :
    ∀ (stream : List (Except Err Bytes)) (fuel : Nat)
      (st : RState (List (Except Err Bytes))),
    st.low = stream → st.ct = ct →
    (∀ x ∈ stream, ∃ f, x = .ok f ∧ sanitize ct f = []) →
    stream.length < fuel →
    (readFrameAuxF scriptedRead fuel st).1 = .error .eof := by
  intro stream
  induction stream with
  | nil =>
    intro fuel st hlow hct hall hlen
    cases fuel with
    | zero => omega
    | succ fu =>
      unfold readFrameAuxF
      rw [hlow]
      simp [scriptedRead]
  | cons x rest ih =>
    intro fuel st hlow hct hall hlen
    cases fuel with
    | zero => simp at hlen
    | succ fu =>
      obtain ⟨f, hx, hsan⟩ := hall x (by simp)
      unfold readFrameAuxF
      rw [hlow, hx]
      simp only [scriptedRead]
      rw [if_pos (by rw [hct]; exact hsan)]
      exact ih fu _ rfl (by simpa using hct)
        (fun y hy => hall y (by simp [hy])) (by simp at hlen; omega)

/-- Reading a list of non-empty-sanitizing frames from the scripted
low-level reader: each call returns the sanitized frame and the counters
advance in lock step. -/
theorem readSeq_scripted_ok (ct : FramingType) :
    ∀ (F : List Bytes) (st : RState (List (Except Err Bytes)))
      (rest : List (Except Err Bytes)),
    st.ct = ct → st.low = F.map Except.ok ++ rest →
    st.success = st.total → 0 ≤ st.success →
    st.success + F.length ≤ st.maxFrames →
    st.maxTotal = st.maxFrames * 10 →
    (∀ f ∈ F, sanitize ct f ≠ []) →
    readSeq scriptedRead st F.length =
      (F.map (fun f => .ok (sanitize ct f)),
       { st with low := rest, success := st.success + F.length,
                 total := st.total + F.length }) := by
  intro F
  induction F with
  | nil =>
    intro st rest hct hlow heq hpos hcnt hmt hsan
    obtain ⟨lo, sct, mf, mt, su, sto⟩ := st
    simp only [List.map_nil, List.length_nil, readSeq]
    simp only [List.map_nil, List.nil_append] at hlow
    simp at hlow heq ⊢
    exact hlow
  | cons f F' ih =>
    intro st rest hct hlow heq hpos hcnt hmt hsan
    have hstep := hlReadFrame_ok_step scriptedRead st f (F'.map Except.ok ++ rest)
      (by rw [hlow]; simp [scriptedRead])
      (by rw [hct]; exact hsan f (by simp))
      (by simp at hcnt; omega)
      (by simp at hcnt; omega)
    simp only [List.length_cons, readSeq, hstep]
    have hih := ih { st with low := F'.map Except.ok ++ rest,
                             total := st.total + 1, success := st.success + 1 } rest
      (by simpa using hct) (by simp) (by simp; omega) (by simp; omega)
      (by show st.success + 1 + (F'.length : Int) ≤ st.maxFrames
          simp only [List.length_cons] at hcnt; push_cast at hcnt; omega)
      (by simpa using hmt)
      (fun g hg => hsan g (by simp [hg]))
    rw [hih]
    refine Prod.ext ?_ ?_
    · simp [hct]
    · simp only [RState.mk.injEq]
      refine ⟨trivial, trivial, trivial, trivial, by push_cast; omega, by push_cast; omega⟩

/-- A single successful high-level write: size and count checks pass, the
sanitized frame is non-empty, the low-level write succeeds, so the frame
counter advances and the sanitized frame reaches the low-level writer. -/
theorem hlWriteFrame_ok_step (lowWrite : σ → Bytes → Option Err × σ)
    (st : WState σ) (f : Bytes)
    (hlow : ∀ s g, (lowWrite s g).1 = none)
    (hsize : (f.length : Int) ≤ st.maxFrameSize)
    (hcnt : st.frameCount < st.maxFrames)
    (hsan : sanitize st.ct f ≠ []) :
    hlWriteFrame lowWrite st f =
      (none, { st with low := (lowWrite st.low (sanitize st.ct f)).2,
                       frameCount := st.frameCount + 1 }) := by
  unfold hlWriteFrame
  rw [if_neg (by omega)]
  rw [if_neg (by omega)]
  rw [if_neg hsan]
  rcases hl : lowWrite st.low (sanitize st.ct f) with ⟨e, low'⟩
  have : e = none := by have := hlow st.low (sanitize st.ct f); rwa [hl] at this
  subst this
  simp [hl]

/-- An elided high-level write: a frame sanitizing to empty is accepted
without changing any state (the counter stays, nothing reaches the sink). -/
theorem hlWriteFrame_empty_step (lowWrite : σ → Bytes → Option Err × σ)
    (st : WState σ) (f : Bytes)
    (hsize : (f.length : Int) ≤ st.maxFrameSize)
    (hcnt : st.frameCount < st.maxFrames)
    (hsan : sanitize st.ct f = []) :
    hlWriteFrame lowWrite st f = (none, st) := by
  unfold hlWriteFrame
  rw [if_neg (by omega)]
  rw [if_neg (by omega)]
  rw [if_pos hsan]

/-- Writing a list of good frames with an always-succeeding low-level
writer: every call returns success, the counter advances by the number of
frames, and the low-level writer sees exactly the sanitized frames in
order. -/
theorem writeSeq_ok (lowWrite : σ → Bytes → Option Err × σ)
    (hlow : ∀ s g, (lowWrite s g).1 = none) :
    ∀ (F : List Bytes) (st : WState σ),
    (∀ f ∈ F, (f.length : Int) ≤ st.maxFrameSize) →
    (∀ f ∈ F, sanitize st.ct f ≠ []) →
    st.frameCount + F.length ≤ st.maxFrames →
    writeSeq lowWrite st F =
      (List.replicate F.length none,
       { st with low := F.foldl (fun s f => (lowWrite s (sanitize st.ct f)).2) st.low,
                 frameCount := st.frameCount + F.length }) := by
  intro F
  induction F with
  | nil =>
    intro st hsize hsan hcnt
    simp only [List.length_nil, writeSeq, List.foldl_nil, List.replicate]
    refine Prod.ext rfl ?_
    simp only [WState.mk.injEq]
    obtain ⟨lo, sct, mfs, mf, fc⟩ := st
    simp
  | cons f F' ih =>
    intro st hsize hsan hcnt
    have hstep := hlWriteFrame_ok_step lowWrite st f hlow
      (hsize f (by simp))
      (by simp only [List.length_cons] at hcnt; push_cast at hcnt; omega)
      (hsan f (by simp))
    simp only [List.length_cons, writeSeq, hstep]
    have hih := ih { st with low := (lowWrite st.low (sanitize st.ct f)).2,
                             frameCount := st.frameCount + 1 }
      (fun g hg => hsize g (by simp [hg]))
      (fun g hg => hsan g (by simp [hg]))
      (by show st.frameCount + 1 + (F'.length : Int) ≤ st.maxFrames
          simp only [List.length_cons] at hcnt; push_cast at hcnt; omega)
    rw [hih]
    refine Prod.ext rfl ?_
    simp only [WState.mk.injEq]
    refine ⟨by simp, trivial, trivial, trivial, by push_cast; omega⟩

/-!
## YAML line-splitter lemmas
-/

theorem linesAux_append_snoc : ∀ (a b cur : Bytes),
    linesAux ((a ++ [10]) ++ b) cur = linesAux (a ++ [10]) cur ++ linesAux b [] := by
  intro a
  induction a with
  | nil =>
    intro b cur
    simp [linesAux]
  | cons c a' ih =>
    intro b cur
    by_cases hc : c = 10
    · subst hc
      simp [linesAux]
      simpa using ih b []
    · simp only [List.cons_append, linesAux, if_neg hc]
      exact ih b (c :: cur)

theorem linesOf_append (a b : Bytes) :
    linesOf ((a ++ [10]) ++ b) = linesOf (a ++ [10]) ++ linesOf b := by
  unfold linesOf
  exact linesAux_append_snoc a b []

theorem linesAux_join : ∀ (a cur : Bytes), 13 ∉ a → 13 ∉ cur →
    (linesAux (a ++ [10]) cur).foldr (· ++ ·) [] = cur.reverse ++ a ++ [10] := by
  intro a
  induction a with
  | nil =>
    intro cur ha hcur
    cases cur with
    | nil => simp [linesAux]
    | cons x xs =>
      have hx : x ≠ 13 := fun h => hcur (by simp [h])
      simp [linesAux, hx]
  | cons c a' ih =>
    intro cur ha hcur
    have hc13 : c ≠ 13 := fun h => ha (by simp [h])
    by_cases hc : c = 10
    · subst hc
      have hih := ih [] (fun h => ha (by simp [h])) (by simp)
      cases cur with
      | nil => simp [linesAux, hih]
      | cons x xs =>
        have hx : x ≠ 13 := fun h => hcur (by simp [h])
        simp [linesAux, hx, hih]
    · simp only [List.cons_append, linesAux, if_neg hc, List.append_eq]
      rw [ih (c :: cur) (fun h => ha (by simp [h])) (by
        intro h
        simp at h
        rcases h with h | h
        · exact hc13 h.symm
        · exact hcur h)]
      simp

theorem linesOf_join (a : Bytes) (ha : 13 ∉ a) :
    (linesOf (a ++ [10])).foldr (· ++ ·) [] = a ++ [10] := by
  unfold linesOf
  simpa using linesAux_join a [] ha (by simp)

/-!
## YAML splitter lemmas
-/

theorem sepLine_len : ((sepLine.length : Nat) : Int) = 4 := rfl

theorem yamlSplitReadF_nil (budget used : Int) (buffer : Bytes) :
    yamlSplitReadF budget [] used buffer =
      if budget < used then (.error (.frameSizeOverflowErr budget), [], used)
      else if buffer = [] then (.error .eof, [], used)
      else (.ok buffer, [], used) := rfl

theorem yamlSplitReadF_cons (budget : Int) (line : Bytes) (rest : List Bytes)
    (used : Int) (buffer : Bytes) :
    yamlSplitReadF budget (line :: rest) used buffer =
      if budget < used then
        (.error (.frameSizeOverflowErr budget), line :: rest, used)
      else if budget < used + (line.length : Int) then
        (.error (.frameSizeOverflowErr budget), line :: rest, budget + 1)
      else if line.take 3 = sepBytes then
        let trimmed := trimSpaceBytes (line.drop 3)
        if trimmed ≠ [] ∧ trimmed.head? ≠ some 35 then
          (.error .yamlSyntaxErr, rest, used + (line.length : Int))
        else if buffer ≠ [] then (.ok buffer, rest, used + (line.length : Int))
        else yamlSplitReadF budget rest (used + (line.length : Int)) buffer
      else yamlSplitReadF budget rest (used + (line.length : Int)) (buffer ++ line) := rfl

theorem yamlSplitReadF_skip_sep (budget used : Int) (X : List Bytes)
    (h0 : ¬ budget < used) (h4 : used + 4 ≤ budget) :
    yamlSplitReadF budget (sepLine :: X) used [] =
      yamlSplitReadF budget X (used + 4) [] := by
  rw [yamlSplitReadF_cons]
  rw [if_neg h0]
  rw [if_neg (show ¬ budget < used + ((sepLine.length : Nat) : Int) by
    rw [sepLine_len]; omega)]
  rw [if_pos (show sepLine.take 3 = sepBytes by decide)]
  rw [if_neg (by decide)]
  rw [if_neg (by simp)]
  rw [sepLine_len]

theorem yamlSplitReadF_flush_sep (budget used : Int) (X : List Bytes) (s : Bytes)
    (hs : s ≠ []) (h0 : ¬ budget < used) (h4 : used + 4 ≤ budget) :
    yamlSplitReadF budget (sepLine :: X) used s = (.ok s, X, used + 4) := by
  rw [yamlSplitReadF_cons]
  rw [if_neg h0]
  rw [if_neg (show ¬ budget < used + ((sepLine.length : Nat) : Int) by
    rw [sepLine_len]; omega)]
  rw [if_pos (show sepLine.take 3 = sepBytes by decide)]
  rw [if_neg (by decide)]
  rw [if_pos hs]
  rw [sepLine_len]

theorem yamlSplitReadF_flush_end (budget used : Int) (s : Bytes) (hs : s ≠ [])
    (h0 : ¬ budget < used) :
    yamlSplitReadF budget [] used s = (.ok s, [], used) := by
  rw [yamlSplitReadF_nil, if_neg h0, if_neg hs]

theorem yamlSplitReadF_overflow (budget used : Int) (line : Bytes)
    (rest : List Bytes) (buffer : Bytes)
    (h0 : ¬ budget < used) (h : budget < used + (line.length : Int)) :
    yamlSplitReadF budget (line :: rest) used buffer =
      (.error (.frameSizeOverflowErr budget), line :: rest, budget + 1) := by
  rw [yamlSplitReadF_cons, if_neg h0, if_pos h]

theorem yamlSplitReadF_accumulate : ∀ (L : List Bytes) (budget used : Int)
    (buffer : Bytes) (X : List Bytes),
    (∀ l ∈ L, l.take 3 ≠ sepBytes) →
    ¬ budget < used →
    used + ((L.foldr (· ++ ·) []).length : Int) ≤ budget →
    yamlSplitReadF budget (L ++ X) used buffer =
      yamlSplitReadF budget X (used + ((L.foldr (· ++ ·) []).length : Int))
        (buffer ++ L.foldr (· ++ ·) []) := by
  intro L
  induction L with
  | nil =>
    intro budget used buffer X hL h0 hb
    simp
  | cons l L' ih =>
    intro budget used buffer X hL h0 hb
    have hl : l.take 3 ≠ sepBytes := hL l (by simp)
    have hlen : ((List.foldr (· ++ ·) ([] : Bytes) (l :: L')).length : Int) =
        (l.length : Int) + ((List.foldr (· ++ ·) ([] : Bytes) L').length : Int) := by
      simp only [List.foldr_cons, List.length_append]
      push_cast
      ring
    have hnn : (0 : Int) ≤ ((List.foldr (· ++ ·) ([] : Bytes) L').length : Int) :=
      Int.natCast_nonneg _
    have hln : (0 : Int) ≤ (l.length : Int) := Int.natCast_nonneg _
    rw [hlen] at hb
    simp only [List.cons_append]
    rw [yamlSplitReadF_cons]
    rw [if_neg h0]
    rw [if_neg (show ¬ budget < used + (l.length : Int) by omega)]
    rw [if_neg hl]
    rw [ih budget (used + (l.length : Int)) (buffer ++ l) X
      (fun m hm => hL m (by simp [hm])) (by omega) (by omega)]
    rw [hlen]
    have harg : used + (l.length : Int) +
        ((List.foldr (· ++ ·) ([] : Bytes) L').length : Int) =
        used + ((l.length : Int) + ((List.foldr (· ++ ·) ([] : Bytes) L').length : Int)) := by
      ring
    rw [harg]
    simp only [List.foldr_cons, List.append_assoc]

theorem yamlLowRead_err (M : Int) (lines : List Bytes) (u : Int) (e : Err)
    (rest : List Bytes × Int)
    (h : yamlSplitReadF (M + 4) lines u [] = (.error e, rest)) :
    yamlLowRead M (lines, u) = (.error e, rest) := by
  show yamlLowReadAux M lines u = (.error e, rest)
  unfold yamlLowReadAux
  rw [h]

theorem yamlLowRead_ok (M : Int) (lines : List Bytes) (u : Int) (frame : Bytes)
    (rest : List Bytes × Int)
    (h : yamlSplitReadF (M + 4) lines u [] = (.ok frame, rest))
    (hsize : ¬ M < (frame.length : Int)) :
    yamlLowRead M (lines, u) = (.ok frame, (rest.1, 0)) := by
  show yamlLowReadAux M lines u = (.ok frame, (rest.1, 0))
  unfold yamlLowReadAux
  rw [h]
  simp only []
  rw [if_neg hsize]

/-- One low-level YAML read at the head of a document-line list with `u`
bytes already counted: the splitter consumes the leading document (and the
separator line that terminates it, when more documents follow) within the
budget `M + 4` and returns it verbatim, and the byte counter is reset. -/
theorem yamlLowRead_doc (M u : Int) (s : Bytes) (S' : List Bytes)
    (hs : ∃ r, s = r ++ [10]) (hcr : 13 ∉ s)
    (hlines : ∀ l ∈ linesOf s, l.take 3 ≠ sepBytes)
    (hsize : (s.length : Int) ≤ M)
    (hu : 0 ≤ u) (hbud : u + (s.length : Int) + 4 ≤ M + 4) :
    yamlLowRead M (yamlDocLines (s :: S'), u) = (.ok s, (yamlDocLines S', 0)) := by
  obtain ⟨r, rfl⟩ := hs
  have hrcr : 13 ∉ r := fun h => hcr (by simp [h])
  have hjoin : (linesOf (r ++ [10])).foldr (· ++ ·) [] = r ++ [10] :=
    linesOf_join r hrcr
  have hne : r ++ [10] ≠ [] := by simp
  have hlnn : (0 : Int) ≤ ((r ++ [10]).length : Int) := Int.natCast_nonneg _
  have h0 : ¬ M + 4 < u := by omega
  cases S' with
  | nil =>
    have hsplit : yamlSplitReadF (M + 4) (yamlDocLines [r ++ [10]]) u [] =
        (.ok (r ++ [10]), ([], u + ((r ++ [10]).length : Int))) := by
      show yamlSplitReadF (M + 4) (linesOf (r ++ [10])) u [] = _
      rw [show linesOf (r ++ [10]) = linesOf (r ++ [10]) ++ ([] : List Bytes) from
        (List.append_nil _).symm]
      rw [yamlSplitReadF_accumulate (linesOf (r ++ [10])) (M + 4) u [] [] hlines h0
        (by rw [hjoin]; omega)]
      rw [hjoin]
      rw [List.nil_append]
      exact yamlSplitReadF_flush_end (M + 4) _ (r ++ [10]) hne (by omega)
    rw [yamlLowRead_ok M _ u (r ++ [10]) _ hsplit (by omega)]
    rfl
  | cons s'' rest =>
    have hsplit : yamlSplitReadF (M + 4) (yamlDocLines ((r ++ [10]) :: s'' :: rest)) u [] =
        (.ok (r ++ [10]),
          (yamlDocLines (s'' :: rest), u + ((r ++ [10]).length : Int) + 4)) := by
      show yamlSplitReadF (M + 4)
        (linesOf (r ++ [10]) ++ sepLine :: yamlDocLines (s'' :: rest)) u [] = _
      rw [yamlSplitReadF_accumulate (linesOf (r ++ [10])) (M + 4) u [] _ hlines h0
        (by rw [hjoin]; omega)]
      rw [hjoin]
      rw [List.nil_append]
      exact yamlSplitReadF_flush_sep (M + 4) _ _ (r ++ [10]) hne (by omega) (by omega)
    rw [yamlLowRead_ok M _ u (r ++ [10]) _ hsplit (by omega)]

theorem yamlLowRead_eof (M u : Int) (h0 : ¬ M + 4 < u) :
    yamlLowRead M ([], u) = (.error .eof, ([], u)) := by
  have h : yamlSplitReadF (M + 4) [] u [] = (.error .eof, ([], u)) := by
    rw [yamlSplitReadF_nil, if_neg h0, if_pos rfl]
  exact yamlLowRead_err M [] u .eof ([], u) h

theorem yamlLowRead_skip_sep (M u : Int) (X : List Bytes)
    (h0 : ¬ M + 4 < u) (h4 : u + 4 ≤ M + 4) :
    yamlLowRead M (sepLine :: X, u) = yamlLowRead M (X, u + 4) := by
  show yamlLowReadAux M (sepLine :: X) u = yamlLowReadAux M X (u + 4)
  unfold yamlLowReadAux
  rw [yamlSplitReadF_skip_sep (M + 4) u X h0 h4]

/-- A first document within 4 bytes of the limit overflows the budget:
after the leading separator (4 bytes) and a single document line `d`
within the budget, the separator line terminating the document pushes the
counter past `M + 4`, so the read fails with `FrameSizeOverflowErr (M+4)`
raised by the `IoLimitedReader` — even though `d` itself is within the
final `maxFrameSize` check. -/
theorem yamlLowRead_first_overflow (M : Int) (d : Bytes) (t : List Bytes)
    (hd3 : d.take 3 ≠ sepBytes)
    (hM : 0 ≤ M)
    (hfit : (d.length : Int) ≤ M)
    (hbig : M < (d.length : Int) + 4) :
    yamlLowRead M (sepLine :: d :: sepLine :: t, 0) =
      (.error (.frameSizeOverflowErr (M + 4)), (sepLine :: t, M + 4 + 1)) := by
  have hfold : List.foldr (· ++ ·) ([] : Bytes) [d] = d := by
    rw [List.foldr_cons, List.foldr_nil]
    exact List.append_nil d
  refine yamlLowRead_err M _ 0 _ _ ?_
  rw [yamlSplitReadF_skip_sep (M + 4) 0 (d :: sepLine :: t) (by omega) (by omega)]
  rw [show (d :: sepLine :: t : List Bytes) = [d] ++ (sepLine :: t) from rfl]
  rw [yamlSplitReadF_accumulate [d] (M + 4) (0 + 4) [] (sepLine :: t)
    (by intro l hl
        rw [List.mem_singleton] at hl
        subst hl
        exact hd3)
    (by omega)
    (by rw [hfold]; omega)]
  rw [hfold]
  rw [yamlSplitReadF_overflow (M + 4) (0 + 4 + (d.length : Int)) sepLine t
    ([] ++ d) (by omega) (by rw [sepLine_len]; omega)]

/-- The lines of the YAML wire for a non-empty list of newline-terminated
documents: a leading separator line, then the documents separated by
separator lines. -/
theorem linesOf_yamlWire : ∀ (S : List Bytes),
    (∀ s ∈ S, ∃ r, s = r ++ [10]) → S ≠ [] →
    linesOf (yamlWireOf S) = sepLine :: yamlDocLines S := by
  intro S
  induction S with
  | nil => intro _ h; exact absurd rfl h
  | cons s S' ih =>
    intro hall hne
    obtain ⟨r, hr⟩ := hall s (by simp)
    cases S' with
    | nil =>
      show linesOf (yamlFrameWire s ++ []) = _
      rw [List.append_nil]
      unfold yamlFrameWire
      have : sepBytes ++ [10] ++ s = (sepBytes ++ [10]) ++ s := by simp
      rw [this]
      have hsep : sepBytes ++ [10] = sepBytes ++ [10] := rfl
      rw [show (sepBytes ++ [10] : Bytes) = (sepBytes ++ [10] : Bytes) from rfl]
      rw [linesOf_append sepBytes s]
      rw [show linesOf (sepBytes ++ [10]) = [sepLine] from by decide]
      rfl
    | cons s'' rest =>
      show linesOf (yamlFrameWire s ++ yamlWireOf (s'' :: rest)) = _
      unfold yamlFrameWire
      rw [show sepBytes ++ [10] ++ s ++ yamlWireOf (s'' :: rest) =
          (sepBytes ++ [10]) ++ (s ++ yamlWireOf (s'' :: rest)) from by simp]
      rw [linesOf_append sepBytes (s ++ yamlWireOf (s'' :: rest))]
      rw [show linesOf (sepBytes ++ [10]) = [sepLine] from by decide]
      rw [hr]
      rw [linesOf_append r (yamlWireOf (s'' :: rest))]
      rw [ih (fun x hx => hall x (by simp [hx])) (by simp)]
      rw [← hr]
      show sepLine :: (linesOf s ++ sepLine :: yamlDocLines (s'' :: rest)) = _
      rfl

/-- Reading a list of well-formed YAML documents through the high-level
Reader over the modelled splitter: every document is returned verbatim and
the counters advance in lock step. -/
theorem readSeq_yaml (M : Int) : ∀ (S : List Bytes) (st : RState (List Bytes × Int)),
    st.ct = .yaml → st.low = (yamlDocLines S, 0) →
    (∀ s ∈ S, (∃ r, s = r ++ [10]) ∧ 13 ∉ s ∧
      (∀ l ∈ linesOf s, l.take 3 ≠ sepBytes) ∧
      (s.length : Int) ≤ M ∧ sanitize .yaml s = s) →
    st.success = st.total → 0 ≤ st.success →
    st.success + S.length ≤ st.maxFrames →
    st.maxTotal = st.maxFrames * 10 →
    readSeq (yamlLowRead M) st S.length =
      (S.map .ok, { st with low := ([], 0), success := st.success + S.length,
                            total := st.total + S.length }) := by
  intro S
  induction S with
  | nil =>
    intro st hct hlow hall heq hpos hcnt hmt
    obtain ⟨lo, sct, mf, mt, su, sto⟩ := st
    simp only [List.map_nil, List.length_nil, readSeq]
    simp only [yamlDocLines] at hlow
    simp at hlow ⊢
    exact hlow
  | cons s S' ih =>
    intro st hct hlow hall heq hpos hcnt hmt
    obtain ⟨hsnoc, hcr, hlines, hsize, hfix⟩ := hall s (by simp)
    have hslnn : (0 : Int) ≤ (s.length : Int) := Int.natCast_nonneg _
    have hlowread : yamlLowRead M st.low = (.ok s, (yamlDocLines S', 0)) := by
      rw [hlow]
      exact yamlLowRead_doc M 0 s S' hsnoc hcr hlines hsize (le_refl 0) (by omega)
    have hsne : s ≠ [] := by obtain ⟨r, rfl⟩ := hsnoc; simp
    have hstep := hlReadFrame_ok_step (yamlLowRead M) st s (yamlDocLines S', 0)
      hlowread
      (by rw [hct]; rw [show sanitize .yaml s = s from hfix]; exact hsne)
      (by simp only [List.length_cons] at hcnt; push_cast at hcnt; omega)
      (by simp only [List.length_cons] at hcnt; push_cast at hcnt; omega)
    simp only [List.length_cons, readSeq, hstep]
    have hih := ih { st with low := (yamlDocLines S', 0),
                             total := st.total + 1, success := st.success + 1 }
      (by simpa using hct) (by simp) (fun x hx => hall x (by simp [hx]))
      (by simp; omega) (by simp; omega)
      (by show st.success + 1 + (S'.length : Int) ≤ st.maxFrames
          simp only [List.length_cons] at hcnt; push_cast at hcnt; omega)
      (by simpa using hmt)
    rw [hih]
    refine Prod.ext ?_ ?_
    · simp only [List.map_cons, Prod.fst]
      rw [hct, hfix]
    · simp only [RState.mk.injEq]
      refine ⟨trivial, trivial, trivial, trivial, by push_cast; omega, by push_cast; omega⟩

/-!
## JSON scanner lemmas
-/

theorem scanObjAux_cons (c : Nat) (t : Bytes) (depth : Nat) (inStr esc : Bool)
    (acc : Bytes) :
    scanObjAux (c :: t) depth inStr esc acc =
      (if inStr then
        (if esc then scanObjAux t depth true false (acc ++ [c])
         else if c = 92 then scanObjAux t depth true true (acc ++ [c])
         else if c = 34 then scanObjAux t depth false false (acc ++ [c])
         else scanObjAux t depth true false (acc ++ [c]))
      else if c = 34 then scanObjAux t depth true false (acc ++ [c])
      else if c = 123 then scanObjAux t (depth + 1) false false (acc ++ [c])
      else if c = 125 then
        (if depth = 1 then some (acc ++ [c], t)
         else
           match depth with
           | 0 => none
           | d + 1 => scanObjAux t d false false (acc ++ [c]))
      else scanObjAux t depth false false (acc ++ [c])) := rfl

theorem scanObj_nil : scanObj [] = none := rfl

theorem scanObj_cons (c : Nat) (t : Bytes) :
    scanObj (c :: t) =
      if c = 123 then scanObjAux t 1 false false [123] else none := rfl

/-- The scanner is insensitive to what follows the object it consumes:
if it consumes its whole input exactly, on extended input it consumes the
same bytes and returns the extension as the remainder. -/
theorem scanObjAux_append : ∀ (b r : Bytes) (depth : Nat) (inStr esc : Bool)
    (acc out : Bytes),
    scanObjAux b depth inStr esc acc = some (out, []) →
    scanObjAux (b ++ r) depth inStr esc acc = some (out, r) := by
  intro b
  induction b with
  | nil =>
    intro r d iS es acc out h
    simp [scanObjAux] at h
  | cons c t ih =>
    intro r d iS es acc out h
    rw [scanObjAux_cons] at h
    rw [List.cons_append, scanObjAux_cons]
    split_ifs at h ⊢ <;>
      first
      | exact ih r _ _ _ _ out h
      | (simp only [Option.some.injEq, Prod.mk.injEq] at h
         obtain ⟨h1, h2⟩ := h
         subst h1
         subst h2
         simp)
      | (cases d with
         | zero => simp at h
         | succ d' => exact ih r _ _ _ _ out h)

theorem scanObj_append (s r : Bytes) (h : scanObj s = some (s, [])) :
    scanObj (s ++ r) = some (s, r) := by
  cases s with
  | nil => rw [scanObj_nil] at h; exact absurd h (by simp)
  | cons c t =>
    rw [scanObj_cons] at h
    rw [List.cons_append, scanObj_cons]
    by_cases hc : c = 123
    · rw [if_pos hc] at h
      rw [if_pos hc]
      exact scanObjAux_append t r 1 false false [123] (c :: t) h
    · rw [if_neg hc] at h
      exact absurd h (by simp)

theorem jsonLowRead_doc (M : Int) (s X : Bytes)
    (hscan : scanObj s = some (s, [])) (hsize : (s.length : Int) ≤ M) :
    jsonLowRead M (s ++ X) = (.ok s, X) := by
  have hhead : ∃ t, s = 123 :: t := by
    cases s with
    | nil => rw [scanObj_nil] at hscan; exact absurd hscan (by simp)
    | cons c t =>
      rw [scanObj_cons] at hscan
      by_cases hc : c = 123
      · exact ⟨t, by rw [hc]⟩
      · rw [if_neg hc] at hscan
        exact absurd hscan (by simp)
  obtain ⟨t, rfl⟩ := hhead
  have h1 : ((123 :: t) ++ X).dropWhile isJsonWsp = (123 :: t) ++ X := by
    rw [List.cons_append, List.dropWhile_cons]
    norm_num [isJsonWsp]
  have h2 : scanObj ((123 :: t) ++ X) = some (123 :: t, X) :=
    scanObj_append (123 :: t) X hscan
  have hM : ¬ M < (((123 :: t) : Bytes).length : Int) := by omega
  simp only [jsonLowRead]
  rw [h1, h2]
  show (if M < (((123 :: t) : Bytes).length : Int) then
      ((.error (.frameSizeOverflowErr M), X) : (Except Err Bytes) × Bytes)
    else (.ok (123 :: t), X)) = (.ok (123 :: t), X)
  rw [if_neg hM]

theorem jsonLowRead_eof (M : Int) : jsonLowRead M [] = (.error .eof, []) := by
  unfold jsonLowRead
  simp [scanObj]

/-- Reading a list of complete JSON objects through the high-level Reader
over the modelled decoder: every object is returned verbatim and the
counters advance in lock step. -/
theorem readSeq_json (M : Int) : ∀ (S : List Bytes) (st : RState Bytes),
    st.ct = .json → st.low = jsonWireOf S →
    (∀ s ∈ S, scanObj s = some (s, []) ∧ (s.length : Int) ≤ M ∧
      sanitize .json s = s ∧ s ≠ []) →
    st.success = st.total → 0 ≤ st.success →
    st.success + S.length ≤ st.maxFrames →
    st.maxTotal = st.maxFrames * 10 →
    readSeq (jsonLowRead M) st S.length =
      (S.map .ok, { st with low := [], success := st.success + S.length,
                            total := st.total + S.length }) := by
  intro S
  induction S with
  | nil =>
    intro st hct hlow hall heq hpos hcnt hmt
    obtain ⟨lo, sct, mf, mt, su, sto⟩ := st
    simp only [List.map_nil, List.length_nil, readSeq]
    simp only [jsonWireOf] at hlow
    simp at hlow ⊢
    exact hlow
  | cons s S' ih =>
    intro st hct hlow hall heq hpos hcnt hmt
    obtain ⟨hscan, hsize, hfix, hsne⟩ := hall s (by simp)
    have hlowread : jsonLowRead M st.low = (.ok s, jsonWireOf S') := by
      rw [hlow]
      exact jsonLowRead_doc M s (jsonWireOf S') hscan hsize
    have hstep := hlReadFrame_ok_step (jsonLowRead M) st s (jsonWireOf S')
      hlowread
      (by rw [hct]; rw [show sanitize .json s = s from hfix]; exact hsne)
      (by simp only [List.length_cons] at hcnt; push_cast at hcnt; omega)
      (by simp only [List.length_cons] at hcnt; push_cast at hcnt; omega)
    simp only [List.length_cons, readSeq, hstep]
    have hih := ih { st with low := jsonWireOf S',
                             total := st.total + 1, success := st.success + 1 }
      (by simpa using hct) (by simp) (fun x hx => hall x (by simp [hx]))
      (by simp; omega) (by simp; omega)
      (by show st.success + 1 + (S'.length : Int) ≤ st.maxFrames
          simp only [List.length_cons] at hcnt; push_cast at hcnt; omega)
      (by simpa using hmt)
    rw [hih]
    refine Prod.ext ?_ ?_
    · simp only [List.map_cons, Prod.fst]
      rw [hct, hfix]
    · simp only [RState.mk.injEq]
      refine ⟨trivial, trivial, trivial, trivial, by push_cast; omega, by push_cast; omega⟩

/-!
## Wire assembly lemmas
-/

theorem foldl_yamlWire : ∀ (F : List Bytes) (sink : Bytes),
    F.foldl (fun s f => (sinkWriteYAML s (sanitize .yaml f)).2) sink =
      sink ++ yamlWireOf (F.map (sanitize .yaml)) := by
  intro F
  induction F with
  | nil => intro sink; simp [yamlWireOf]
  | cons f F' ih =>
    intro sink
    simp only [List.foldl_cons, List.map_cons, yamlWireOf]
    rw [ih]
    simp [sinkWriteYAML, List.append_assoc]

theorem foldl_jsonWire : ∀ (F : List Bytes) (sink : Bytes),
    F.foldl (fun s f => (sinkWriteJSON s (sanitize .json f)).2) sink =
      sink ++ jsonWireOf (F.map (sanitize .json)) := by
  intro F
  induction F with
  | nil => intro sink; simp [jsonWireOf]
  | cons f F' ih =>
    intro sink
    simp only [List.foldl_cons, List.map_cons, jsonWireOf]
    rw [ih]
    simp [sinkWriteJSON, List.append_assoc]

/-- A non-empty sanitized YAML frame always ends in exactly one appended
newline. -/
theorem sanitizeYAML_snoc (f : Bytes) (h : sanitizeYAMLFrame f ≠ []) :
    ∃ r, sanitizeYAMLFrame f = r ++ [10] := by
  rw [sanitizeYAML_eq_core] at h ⊢
  by_cases hz : yamlTrimLoop (f.length + 1) f = []
  · rw [if_pos hz] at h
    exact absurd rfl h
  · rw [if_neg hz]
    exact ⟨_, rfl⟩

/-- Projection form of the error step: only the returned error is
extracted, so the lemma applies to a state in any syntactic form. -/
theorem hlReadFrame_err_fst (lowRead : σ → (Except Err Bytes) × σ)
    (st : RState σ) (e : Err) (low' : σ)
    (hl : lowRead st.low = (.error e, low'))
    (ht : st.total < st.maxTotal) (hs : st.success ≤ st.maxFrames) :
    (hlReadFrame lowRead st).1 = .error e := by
  rw [hlReadFrame_err_step lowRead st e low' hl ht hs]

/-- Complete YAML read-back: reading as many frames as were written from
the lines of the YAML wire (through the budget-limited splitter, starting
with a fresh byte counter) returns exactly the documents, and one further
call reports end-of-stream.  Only the first document needs the 4 bytes of
slack below `MaxFrameSize`: its budget must also cover the leading
separator line of the wire, while every later document starts after a
counter reset and its terminator fits in the `maxFrameSize + 4` budget. -/
theorem yaml_readback (S : List Bytes)
    (hall : ∀ s ∈ S, (∃ r, s = r ++ [10]) ∧ 13 ∉ s ∧
      (∀ l ∈ linesOf s, l.take 3 ≠ sepBytes) ∧
      (s.length : Int) ≤ defMaxFrameSize ∧ sanitize .yaml s = s)
    (hone : ∀ s ∈ S.take 1, (s.length : Int) + 4 ≤ defMaxFrameSize)
    (hlen : (S.length : Int) ≤ defMaxFrames) :
    (readSeq (yamlLowRead defMaxFrameSize)
        (initRState (linesOf (yamlWireOf S), 0) .yaml defMaxFrames) S.length).1 =
      S.map .ok ∧
    (hlReadFrame (yamlLowRead defMaxFrameSize)
        (readSeq (yamlLowRead defMaxFrameSize)
          (initRState (linesOf (yamlWireOf S), 0) .yaml defMaxFrames) S.length).2).1 =
      .error .eof := by
  cases S with
  | nil =>
    refine ⟨rfl, ?_⟩
    refine hlReadFrame_err_fst (yamlLowRead defMaxFrameSize) _ .eof ([], 0) ?_ ?_ ?_
    · show yamlLowRead defMaxFrameSize (linesOf (yamlWireOf []), 0) = _
      rw [show linesOf (yamlWireOf []) = [] from rfl]
      exact yamlLowRead_eof defMaxFrameSize 0 (by norm_num [defMaxFrameSize])
    · show (0 : Int) < defMaxFrames * 10
      norm_num [defMaxFrames]
    · show (0 : Int) ≤ defMaxFrames
      norm_num [defMaxFrames]
  | cons s S' =>
    obtain ⟨hsnoc, hcr, hlines, hsize, hfix⟩ := hall s (by simp)
    have hsne : s ≠ [] := by obtain ⟨r, rfl⟩ := hsnoc; simp
    have hfit : (s.length : Int) + 4 ≤ defMaxFrameSize := hone s (by simp)
    have hwire : linesOf (yamlWireOf (s :: S')) = sepLine :: yamlDocLines (s :: S') :=
      linesOf_yamlWire (s :: S') (fun x hx => ((hall x hx).1)) (by simp)
    have hlow1 : yamlLowRead defMaxFrameSize (linesOf (yamlWireOf (s :: S')), 0) =
        (.ok s, (yamlDocLines S', 0)) := by
      rw [hwire]
      rw [yamlLowRead_skip_sep defMaxFrameSize 0 _
        (by norm_num [defMaxFrameSize]) (by norm_num [defMaxFrameSize])]
      rw [show (0 : Int) + 4 = 4 from by norm_num]
      exact yamlLowRead_doc defMaxFrameSize 4 s S' hsnoc hcr hlines hsize
        (by norm_num) (by omega)
    have hlen' : (S'.length : Int) + 1 ≤ defMaxFrames := by
      simp only [List.length_cons] at hlen; push_cast at hlen; omega
    have hstep := hlReadFrame_ok_step (yamlLowRead defMaxFrameSize)
      (initRState (linesOf (yamlWireOf (s :: S')), 0) .yaml defMaxFrames) s
      (yamlDocLines S', 0) hlow1
      (by show sanitize .yaml s ≠ []; rw [hfix]; exact hsne)
      (by show (0 : Int) < defMaxFrames * 10; norm_num [defMaxFrames])
      (by show (0 : Int) + 1 ≤ defMaxFrames; norm_num [defMaxFrames])
    constructor
    · show (readSeq _ _ (S'.length + 1)).1 = _
      simp only [readSeq, hstep]
      rw [readSeq_yaml defMaxFrameSize S']
      · show Except.ok (sanitize .yaml s) :: S'.map Except.ok =
          (s :: S').map Except.ok
        rw [hfix]
        rfl
      · rfl
      · rfl
      · exact fun x hx => hall x (by simp [hx])
      · rfl
      · show (0 : Int) ≤ 0 + 1; norm_num
      · show (0 : Int) + 1 + S'.length ≤ defMaxFrames; omega
      · rfl
    · show (hlReadFrame _ (readSeq _ _ (S'.length + 1)).2).1 = _
      simp only [readSeq, hstep]
      rw [readSeq_yaml defMaxFrameSize S']
      · refine hlReadFrame_err_fst (yamlLowRead defMaxFrameSize) _ .eof ([], 0) ?_ ?_ ?_
        · exact yamlLowRead_eof defMaxFrameSize 0 (by norm_num [defMaxFrameSize])
        · show (0 : Int) + 1 + S'.length < defMaxFrames * 10
          norm_num [defMaxFrames] at hlen' ⊢
          omega
        · show (0 : Int) + 1 + S'.length ≤ defMaxFrames
          omega
      · rfl
      · rfl
      · exact fun x hx => hall x (by simp [hx])
      · rfl
      · show (0 : Int) ≤ 0 + 1; norm_num
      · show (0 : Int) + 1 + S'.length ≤ defMaxFrames; omega
      · rfl

/-- Complete JSON read-back: reading as many objects as were written from
the JSON wire returns exactly the objects, and one further call reports
end-of-stream. -/
theorem json_readback (S : List Bytes)
    (hall : ∀ s ∈ S, scanObj s = some (s, []) ∧ (s.length : Int) ≤ defMaxFrameSize ∧
      sanitize .json s = s ∧ s ≠ [])
    (hlen : (S.length : Int) ≤ defMaxFrames) :
    (readSeq (jsonLowRead defMaxFrameSize)
        (initRState (jsonWireOf S) .json defMaxFrames) S.length).1 = S.map .ok ∧
    (hlReadFrame (jsonLowRead defMaxFrameSize)
        (readSeq (jsonLowRead defMaxFrameSize)
          (initRState (jsonWireOf S) .json defMaxFrames) S.length).2).1 =
      .error .eof := by
  have hseq := readSeq_json defMaxFrameSize S
    (initRState (jsonWireOf S) .json defMaxFrames) rfl rfl hall rfl
    (by show (0 : Int) ≤ 0; norm_num)
    (by show (0 : Int) + S.length ≤ defMaxFrames; omega)
    rfl
  rw [hseq]
  refine ⟨rfl, ?_⟩
  refine hlReadFrame_err_fst (jsonLowRead defMaxFrameSize) _ .eof [] ?_ ?_ ?_
  · exact jsonLowRead_eof defMaxFrameSize
  · show (0 : Int) + S.length < defMaxFrames * 10
    norm_num [defMaxFrames] at hlen ⊢
    omega
  · show (0 : Int) + S.length ≤ defMaxFrames
    omega

/-!
## C1 helper lemmas: documents made of repeated `'a'` bytes, and the head
of a read sequence
-/

theorem readSeq_succ_head (lowRead : σ → (Except Err Bytes) × σ)
    (st : RState σ) (k : Nat) :
    (readSeq lowRead st (k + 1)).1 =
      (hlReadFrame lowRead st).1 ::
        (readSeq lowRead (hlReadFrame lowRead st).2 k).1 := rfl

theorem repl97_trimSpace (n : Nat) (hn : 1 ≤ n) :
    trimSpaceBytes (List.replicate n 97) = List.replicate n 97 := by
  obtain ⟨m, rfl⟩ : ∃ m, n = m + 1 := ⟨n - 1, by omega⟩
  unfold trimSpaceBytes
  rw [show (List.replicate (m + 1) 97 : Bytes) = 97 :: List.replicate m 97 from
    List.replicate_succ 97 m]
  rw [trimLeftSpace_of_head_not 97 _ (by decide)]
  unfold trimRightSpace
  rw [show (97 :: List.replicate m 97 : Bytes) = List.replicate (m + 1) 97 from
    (List.replicate_succ 97 m).symm]
  rw [List.reverse_replicate]
  rw [show (List.replicate (m + 1) 97 : Bytes) = 97 :: List.replicate m 97 from
    List.replicate_succ 97 m]
  rw [dropWhile_self_of_head isSpaceByte 97 _ (by decide)]
  rw [show (97 :: List.replicate m 97 : Bytes) = List.replicate (m + 1) 97 from
    (List.replicate_succ 97 m).symm]
  rw [List.reverse_replicate]

theorem repl97_step (n : Nat) (hn : 1 ≤ n) :
    yamlTrimStep (List.replicate n 97) = List.replicate n 97 := by
  have hpre : ¬ sepBytes.isPrefixOf (List.replicate n 97) = true := by
    intro h
    have hp := List.isPrefixOf_iff_prefix.mp h
    have h45 : (45 : Nat) ∈ List.replicate n 97 :=
      hp.subset (show (45 : Nat) ∈ sepBytes by decide)
    have := List.eq_of_mem_replicate h45
    omega
  have hsuf : ¬ sepBytes.isSuffixOf (List.replicate n 97) = true := by
    intro h
    have hp := List.isSuffixOf_iff_suffix.mp h
    have h45 : (45 : Nat) ∈ List.replicate n 97 :=
      hp.subset (show (45 : Nat) ∈ sepBytes by decide)
    have := List.eq_of_mem_replicate h45
    omega
  unfold yamlTrimStep
  rw [repl97_trimSpace n hn]
  unfold trimLeadingSep
  rw [if_neg hpre]
  unfold trimTrailingSep
  rw [if_neg hsuf]

theorem repl97_sanitize (n : Nat) (hn : 1 ≤ n) :
    sanitizeYAMLFrame (List.replicate n 97 ++ [10]) =
      List.replicate n 97 ++ [10] := by
  have hne : List.replicate n 97 ≠ ([] : Bytes) := by
    intro h
    have := congrArg List.length h
    simp at this
    omega
  have hcore : sanitizeYAMLFrame (List.replicate n 97) =
      List.replicate n 97 ++ [10] := by
    rw [sanitizeYAML_eq_core]
    rw [yamlTrimLoop_of_fix _ _ (repl97_step n hn)]
    rw [if_neg hne]
  rw [← hcore]
  exact sanitizeYAMLFrame_idem _

theorem repl97_take3 (n : Nat) (hn : 3 ≤ n) (t : Bytes) :
    (List.replicate n 97 ++ t).take 3 = [97, 97, 97] := by
  obtain ⟨m, rfl⟩ : ∃ m, n = 3 + m := ⟨n - 3, by omega⟩
  rw [List.replicate_add]
  rw [show (List.replicate 3 97 : Bytes) = [97, 97, 97] from rfl]
  rw [List.append_assoc]
  rfl

theorem linesAux_cons (c : Nat) (t : Bytes) (cur : Bytes) :
    linesAux (c :: t) cur =
      if c = 10 then
        ((if cur.head? = some 13 then cur.tail else cur).reverse ++ [10]) ::
          linesAux t []
      else linesAux t (c :: cur) := rfl

theorem linesAux_repl : ∀ (n : Nat) (cur : Bytes),
    linesAux (List.replicate n 97 ++ [10]) cur =
      linesAux [10] (List.replicate n 97 ++ cur) := by
  intro n
  induction n with
  | zero => intro cur; simp
  | succ m ih =>
    intro cur
    rw [show (List.replicate (m + 1) 97 : Bytes) = 97 :: List.replicate m 97 from
      List.replicate_succ 97 m]
    rw [show ((97 :: List.replicate m 97 : Bytes) ++ [10]) =
      97 :: (List.replicate m 97 ++ [10]) from rfl]
    rw [linesAux_cons 97 (List.replicate m 97 ++ [10]) cur]
    rw [if_neg (by decide)]
    rw [ih (97 :: cur)]
    rw [show (97 :: List.replicate m 97 : Bytes) ++ cur =
        List.replicate m 97 ++ (97 :: cur) from by
      rw [show (97 :: List.replicate m 97 : Bytes) =
          List.replicate 1 97 ++ List.replicate m 97 from rfl]
      rw [← List.replicate_add]
      rw [show 1 + m = m + 1 from by omega]
      rw [show (List.replicate (m + 1) 97 : Bytes) =
          List.replicate m 97 ++ List.replicate 1 97 from by
        rw [← List.replicate_add]]
      rw [List.append_assoc]
      rfl]

theorem linesOf_repl (n : Nat) (hn : 1 ≤ n) :
    linesOf (List.replicate n 97 ++ [10]) = [List.replicate n 97 ++ [10]] := by
  unfold linesOf
  rw [linesAux_repl n []]
  rw [List.append_nil]
  obtain ⟨m, rfl⟩ : ∃ m, n = m + 1 := ⟨n - 1, by omega⟩
  have hh : (List.replicate (m + 1) 97 : Bytes).head? = some 97 := by
    rw [List.replicate_succ]
    rfl
  rw [show ([10] : Bytes) = 10 :: [] from rfl]
  rw [linesAux_cons 10 [] (List.replicate (m + 1) 97)]
  rw [if_pos rfl]
  rw [if_neg (by rw [hh]; simp)]
  rw [List.reverse_replicate]
  rfl

theorem bigDoc_length_nat : bigDoc.length = 16777213 := by
  unfold bigDoc
  rw [List.length_append, List.length_replicate]
  rfl

theorem bigDoc_length : (bigDoc.length : Int) = 16777213 := by
  rw [bigDoc_length_nat]
  rfl

theorem bigDoc_sanitize : sanitize .yaml bigDoc = bigDoc := by
  show sanitizeYAMLFrame bigDoc = bigDoc
  unfold bigDoc
  exact repl97_sanitize (2 ^ 24 - 4) (by norm_num)

theorem bigDoc_lines : linesOf bigDoc = [bigDoc] := by
  unfold bigDoc
  exact linesOf_repl (2 ^ 24 - 4) (by norm_num)

theorem bigDoc_take3 : bigDoc.take 3 ≠ sepBytes := by
  unfold bigDoc
  rw [repl97_take3 (2 ^ 24 - 4) (by norm_num) [10]]
  decide

theorem bigDoc_yamlFrameOk : yamlFrameOk bigDoc := by
  unfold yamlFrameOk
  refine ⟨?_, ?_, ?_, ?_, ?_⟩
  · rw [bigDoc_length]; norm_num [defMaxFrameSize]
  · rw [bigDoc_sanitize, bigDoc_length]; norm_num [defMaxFrameSize]
  · rw [bigDoc_sanitize]
    intro h
    have hlen := congrArg List.length h
    rw [bigDoc_length_nat] at hlen
    simp at hlen
  · rw [bigDoc_sanitize]
    unfold bigDoc
    intro h
    rcases List.mem_append.mp h with h1 | h1
    · have := List.eq_of_mem_replicate h1; omega
    · simp at h1
  · rw [bigDoc_sanitize, bigDoc_lines]
    intro l hl
    rw [List.mem_singleton] at hl
    subst hl
    exact bigDoc_take3

/-- C8: Sanitizer idempotence: for every framing kind (YAML, JSON or any
other) and every byte sequence `b`, `sanitize(K, sanitize(K, b)) =
sanitize(K, b)`; in particular the YAML fixed-point trimming followed by
appending one trailing newline to a non-empty result is idempotent. -/
theorem c8_sanitize_idempotent (ct : FramingType) (b : Bytes) :
    sanitize ct (sanitize ct b) = sanitize ct b := sanitize_idem ct b

/-!
## C2 helper lemmas (closable-resource generation)
-/

theorem hlReadFrameCR_of_closed (lowRead : σ → (Except Err Bytes) × σ)
    (c : CloseState) (st : RState σ) (h : c.closed = true) :
    hlReadFrameCR lowRead c st = (.error .errClosedPipe, c, st) := by
  simp [hlReadFrameCR, h]

theorem hlWriteFrameCR_of_closed (lowWrite : σ → Bytes → Option Err × σ)
    (c : CloseState) (st : WState σ) (frame : Bytes) (h : c.closed = true) :
    hlWriteFrameCR lowWrite c st frame = (some .errClosedPipe, c, st) := by
  simp [hlWriteFrameCR, h]

theorem hlReadFrameCR_closed_after_err (lowRead : σ → (Except Err Bytes) × σ)
    (c : CloseState) (st : RState σ) (e : Err)
    (hco : c.closeOnError = true)
    (h : (hlReadFrameCR lowRead c st).1 = .error e) :
    (hlReadFrameCR lowRead c st).2.1.closed = true := by
  by_cases hc : c.closed = true
  · rw [hlReadFrameCR_of_closed lowRead c st hc]
    exact hc
  · unfold hlReadFrameCR at h ⊢
    rw [if_neg hc] at h ⊢
    rcases hr : hlReadFrame lowRead st with ⟨r1, st'⟩
    simp only [hr] at h ⊢
    cases r1 with
    | ok f => simp at h
    | error e' =>
      simp only [hco, if_pos]
      show (resClose c).2.closed = true
      unfold resClose
      rw [if_neg hc]
      by_cases hhc : c.hasCloser = true <;> simp [hhc]

theorem hlWriteFrameCR_closed_after_err (lowWrite : σ → Bytes → Option Err × σ)
    (c : CloseState) (st : WState σ) (frame : Bytes) (e : Err)
    (hco : c.closeOnError = true)
    (h : (hlWriteFrameCR lowWrite c st frame).1 = some e) :
    (hlWriteFrameCR lowWrite c st frame).2.1.closed = true := by
  by_cases hc : c.closed = true
  · rw [hlWriteFrameCR_of_closed lowWrite c st frame hc]
    exact hc
  · unfold hlWriteFrameCR at h ⊢
    rw [if_neg hc] at h ⊢
    rcases hr : hlWriteFrame lowWrite st frame with ⟨r1, st'⟩
    simp only [hr] at h ⊢
    cases r1 with
    | none => simp at h
    | some e' =>
      simp only [hco, if_pos]
      show (resClose c).2.closed = true
      unfold resClose
      rw [if_neg hc]
      by_cases hhc : c.hasCloser = true <;> simp [hhc]

/-- C2: Close-once semantics of the high-level Reader and Writer
(closable-resource generation): Close called twice returns no error both
times (given the wrapped resource's own Close reports no error, or is
skipped because the resource is not owned); every ReadFrame/WriteFrame
call made after the transition to closed fails with `io.ErrClosedPipe`
and never succeeds; and with `closeOnError = true`, a call that returns
any error transitions the resource to closed, so the next call returns
the Closed error. -/
theorem c2_close_once (lowRead : σr → (Except Err Bytes) × σr)
    (lowWrite : σw → Bytes → Option Err × σw) (c : CloseState) :
    ((c.hasCloser = false ∨ c.underlyingCloseErr = none) →
      (resClose c).1 = none ∧ (resClose (resClose c).2).1 = none) ∧
    (c.closed = true → ∀ st : RState σr,
      hlReadFrameCR lowRead c st = (.error .errClosedPipe, c, st)) ∧
    (c.closed = true → ∀ (st : WState σw) (frame : Bytes),
      hlWriteFrameCR lowWrite c st frame = (some .errClosedPipe, c, st)) ∧
    (c.closeOnError = true → ∀ (st : RState σr) (e : Err),
      (hlReadFrameCR lowRead c st).1 = .error e →
      ∀ st2 : RState σr,
        (hlReadFrameCR lowRead (hlReadFrameCR lowRead c st).2.1 st2).1 =
          .error .errClosedPipe) ∧
    (c.closeOnError = true → ∀ (st : WState σw) (frame : Bytes) (e : Err),
      (hlWriteFrameCR lowWrite c st frame).1 = some e →
      ∀ (st2 : WState σw) (frame2 : Bytes),
        (hlWriteFrameCR lowWrite (hlWriteFrameCR lowWrite c st frame).2.1 st2 frame2).1 =
          some .errClosedPipe) := by
  refine ⟨?_, ?_, ?_, ?_, ?_⟩
  · intro h
    unfold resClose
    by_cases hc : c.closed = true
    · simp [hc]
    · rw [if_neg hc]
      rcases h with h | h
      · simp [h]
      · by_cases hhc : c.hasCloser = true <;> simp [hhc, h]
  · intro h st
    exact hlReadFrameCR_of_closed lowRead c st h
  · intro h st frame
    exact hlWriteFrameCR_of_closed lowWrite c st frame h
  · intro hco st e herr st2
    have hcl := hlReadFrameCR_closed_after_err lowRead c st e hco herr
    rw [hlReadFrameCR_of_closed lowRead _ st2 hcl]
  · intro hco st frame e herr st2 frame2
    have hcl := hlWriteFrameCR_closed_after_err lowWrite c st frame e hco herr
    rw [hlWriteFrameCR_of_closed lowWrite _ st2 frame2 hcl]

/-- C2 witness: concrete instances — double close of an open resource
with a clean underlying closer, and a read attempt on a closed resource. -/
theorem c2_close_once_witness :
    ((resClose ⟨false, true, true, none⟩).1 = none ∧
      (resClose (resClose ⟨false, true, true, none⟩).2).1 = none) ∧
    hlReadFrameCR scriptedRead ⟨true, true, true, none⟩ (initRState [] .yaml 1) =
      (.error .errClosedPipe, ⟨true, true, true, none⟩, initRState [] .yaml 1) :=
  ⟨(c2_close_once scriptedRead sinkWriteYAML ⟨false, true, true, none⟩).1 (Or.inr rfl),
   (c2_close_once scriptedRead sinkWriteYAML ⟨true, true, true, none⟩).2.1 rfl
     (initRState [] .yaml 1)⟩

/-- Writer count-overflow step: when the frame counter has reached
`maxFrames`, any in-size frame is refused with the count-overflow error,
before sanitization and elision. -/
theorem hlWriteFrame_count_overflow (lowWrite : σ → Bytes → Option Err × σ)
    (st : WState σ) (g : Bytes)
    (hsize : (g.length : Int) ≤ st.maxFrameSize)
    (hcnt : st.maxFrames ≤ st.frameCount) :
    hlWriteFrame lowWrite st g = (some (.frameCountOverflowErr st.maxFrames), st) := by
  unfold hlWriteFrame
  rw [if_neg (by omega), if_pos hcnt]

/-- Reader count-overflow step, projection form. -/
theorem hlReadFrame_overflow_fst (lowRead : σ → (Except Err Bytes) × σ)
    (st : RState σ) (fr : Bytes) (low' : σ)
    (hlow : lowRead st.low = (.ok fr, low'))
    (hsan : sanitize st.ct fr ≠ [])
    (htotal : st.total < st.maxTotal)
    (hsucc : st.success = st.maxFrames) :
    (hlReadFrame lowRead st).1 = .error (.frameCountOverflowErr st.maxFrames) := by
  rw [hlReadFrame_overflow_step lowRead st fr low' hlow hsan htotal hsucc]

/-- C3: Count boundary: for every `maxFrames ≥ 1`, writing (resp.
reading) exactly `maxFrames` non-empty frames through the high-level
Writer (resp. Reader) succeeds; the attempt to obtain the
`(maxFrames+1)`-th non-empty frame fails with the CountOverflow error;
and on the read side, once exactly `maxFrames` frames have been returned
and the stream is exhausted, the next ReadFrame returns `io.EOF`, not
CountOverflow. -/
theorem c3_count_boundary (m : Int) (hm : 1 ≤ m) :
    (∀ (σ : Type) (lowW : σ → Bytes → Option Err × σ) (low0 : σ)
       (ct : FramingType) (M : Int) (F : List Bytes) (g : Bytes),
      (∀ s f, (lowW s f).1 = none) →
      (F.length : Int) = m →
      (∀ f ∈ F, (f.length : Int) ≤ M ∧ sanitize ct f ≠ []) →
      (g.length : Int) ≤ M → sanitize ct g ≠ [] →
      (writeSeq lowW (initWState low0 ct m M) F).1 = List.replicate F.length none ∧
      (hlWriteFrame lowW (writeSeq lowW (initWState low0 ct m M) F).2 g).1 =
        some (.frameCountOverflowErr m)) ∧
    (∀ (ct : FramingType) (F : List Bytes) (g : Bytes)
       (rest : List (Except Err Bytes)),
      (F.length : Int) = m →
      (∀ f ∈ F, sanitize ct f ≠ []) → sanitize ct g ≠ [] →
      (readSeq scriptedRead (initRState (F.map Except.ok ++ rest) ct m) F.length).1 =
        F.map (fun f => .ok (sanitize ct f)) ∧
      (hlReadFrame scriptedRead
        (readSeq scriptedRead
          (initRState (F.map Except.ok ++ [Except.ok g]) ct m) F.length).2).1 =
        .error (.frameCountOverflowErr m) ∧
      (hlReadFrame scriptedRead
        (readSeq scriptedRead
          (initRState (F.map Except.ok ++ []) ct m) F.length).2).1 =
        .error .eof) := by
  constructor
  · intro σ lowW low0 ct M F g hlow hFlen hgood hgsize hgsan
    have hw := writeSeq_ok lowW hlow F (initWState low0 ct m M)
      (fun f hf => (hgood f hf).1)
      (fun f hf => (hgood f hf).2)
      (by show (0 : Int) + F.length ≤ m; omega)
    refine ⟨by rw [hw], ?_⟩
    rw [hw]
    rw [hlWriteFrame_count_overflow lowW _ g hgsize
      (by show m ≤ (0 : Int) + F.length; omega)]
    rfl
  · intro ct F g rest hFlen hgood hgsan
    refine ⟨?_, ?_, ?_⟩
    · rw [readSeq_scripted_ok ct F _ rest rfl rfl rfl]
      · show (0 : Int) ≤ 0; norm_num
      · show (0 : Int) + F.length ≤ m; omega
      · rfl
      · exact hgood
    · rw [readSeq_scripted_ok ct F _ [Except.ok g] rfl rfl rfl]
      · refine hlReadFrame_overflow_fst scriptedRead _ g [] rfl
          hgsan ?_ ?_
        · show (0 : Int) + F.length < m * 10
          omega
        · show (0 : Int) + F.length = m
          omega
      · show (0 : Int) ≤ 0; norm_num
      · show (0 : Int) + F.length ≤ m; omega
      · rfl
      · exact hgood
    · rw [readSeq_scripted_ok ct F _ [] rfl rfl rfl]
      · refine hlReadFrame_err_fst scriptedRead _ .eof [] rfl ?_ ?_
        · show (0 : Int) + F.length < m * 10
          omega
        · show (0 : Int) + F.length ≤ m
          omega
      · show (0 : Int) ≤ 0; norm_num
      · show (0 : Int) + F.length ≤ m; omega
      · rfl
      · exact hgood

/-- C3 witness: `maxFrames = 1` with one YAML frame and an extra frame. -/
theorem c3_count_boundary_witness :
    ((writeSeq sinkWriteYAML (initWState [] .yaml 1 100) [[97]]).1 =
        List.replicate 1 none ∧
      (hlWriteFrame sinkWriteYAML
        (writeSeq sinkWriteYAML (initWState [] .yaml 1 100) [[97]]).2 [98]).1 =
        some (.frameCountOverflowErr 1)) ∧
    ((readSeq scriptedRead (initRState ([[97]].map Except.ok ++ []) .yaml 1) 1).1 =
        [[97]].map (fun f => .ok (sanitize .yaml f)) ∧
      (hlReadFrame scriptedRead
        (readSeq scriptedRead
          (initRState ([[97]].map Except.ok ++ [Except.ok [98]]) .yaml 1) 1).2).1 =
        .error (.frameCountOverflowErr 1) ∧
      (hlReadFrame scriptedRead
        (readSeq scriptedRead
          (initRState ([[97]].map Except.ok ++ []) .yaml 1) 1).2).1 =
        .error .eof) :=
  ⟨(c3_count_boundary 1 (by norm_num)).1 Bytes sinkWriteYAML [] .yaml 100 [[97]]
      [98] (fun s f => rfl) (by decide) (by decide) (by decide) (by decide),
   (c3_count_boundary 1 (by norm_num)).2 .yaml [[97]] [98] [] (by decide)
      (by decide) (by decide)⟩

/-- C4 counterexample: with `maxFrames = 1` and two non-empty frames
available, the second completed ReadFrame call (which returns
CountOverflow) leaves `successfulFrameCount = 2 > 1 = maxFrames`, so the
claimed invariant `successfulFrameCount ≤ maxFrames` after every
completed call is false. -/
theorem c4_counterexample :
    ¬ ((readSeq scriptedRead
          (initRState [Except.ok [97], Except.ok [97]] .json 1) 2).2.success ≤
        (readSeq scriptedRead
          (initRState [Except.ok [97], Except.ok [97]] .json 1) 2).2.maxFrames) := by
  decide

/-- C4 (amended): after every completed ReadFrame call,
`totalFrameCount ≤ 10 × maxFrames` holds, and
`successfulFrameCount ≤ maxFrames + 1` (the call that detects the count
overflow leaves the counter one above the limit, and it is never rolled
back); whenever the call actually returns a frame,
`successfulFrameCount ≤ maxFrames`. -/
theorem c4_counter_invariants (lowRead : σ → (Except Err Bytes) × σ)
    (st : RState σ)
    (hmt : st.maxTotal = st.maxFrames * 10)
    (hTot : st.total ≤ 10 * st.maxFrames)
    (hSuc : st.success ≤ st.maxFrames + 1) :
    (hlReadFrame lowRead st).2.total ≤ 10 * (hlReadFrame lowRead st).2.maxFrames ∧
    (hlReadFrame lowRead st).2.success ≤ (hlReadFrame lowRead st).2.maxFrames + 1 ∧
    (∀ f, (hlReadFrame lowRead st).1 = .ok f →
      (hlReadFrame lowRead st).2.success ≤ (hlReadFrame lowRead st).2.maxFrames) := by
  obtain ⟨h1, h2, h3, h4, h5⟩ := hlReadFrame_inv lowRead st (by omega) hSuc
  refine ⟨?_, ?_, ?_⟩
  · rw [h5]; omega
  · rw [h5]; exact h2
  · intro f hf; rw [h5]; exact h3 f hf

/-- C4 witness: the invariant at a concrete fresh Reader over one frame. -/
theorem c4_counter_invariants_witness :
    (hlReadFrame scriptedRead (initRState [Except.ok [97]] .json 1)).2.total ≤
      10 * (hlReadFrame scriptedRead (initRState [Except.ok [97]] .json 1)).2.maxFrames ∧
    (hlReadFrame scriptedRead (initRState [Except.ok [97]] .json 1)).2.success ≤
      (hlReadFrame scriptedRead (initRState [Except.ok [97]] .json 1)).2.maxFrames + 1 ∧
    (∀ f, (hlReadFrame scriptedRead (initRState [Except.ok [97]] .json 1)).1 = .ok f →
      (hlReadFrame scriptedRead (initRState [Except.ok [97]] .json 1)).2.success ≤
        (hlReadFrame scriptedRead (initRState [Except.ok [97]] .json 1)).2.maxFrames) :=
  c4_counter_invariants scriptedRead (initRState [Except.ok [97]] .json 1)
    (by decide) (by decide) (by decide)

/-- C5 counterexample: with `maxFrameSize = 2` and source bytes
`97 98 99 100`, the overflow-probing read buffers the peeked byte `99`;
after `ResetCounter` the buffer still holds `99`, and the next Read
delivers exactly that pre-reset peeked byte — refuting both "clears any
pending peeked byte" and "no byte peeked before the reset is ever
delivered after the reset". -/
theorem c5_counterexample :
    (resetCounter (limitedRead (limitedRead
        ⟨[([97, 98], none), ([99], none), ([100], none)], [], 0, 2⟩ 5).2.2 5).2.2).buf =
      [99] ∧
    (limitedRead (resetCounter (limitedRead (limitedRead
        ⟨[([97, 98], none), ([99], none), ([100], none)], [], 0, 2⟩ 5).2.2 5).2.2) 5).1 =
      [99] := by
  decide

/-- C5 (amended): `ResetCounter` sets the cumulative byte counter to 0
and changes nothing else: the pending peeked byte is NOT cleared (it
stays buffered and is delivered by subsequent reads). -/
theorem c5_reset_counter (l : LimitedReader) :
    (resetCounter l).frameBytes = 0 ∧ (resetCounter l).buf = l.buf ∧
    (resetCounter l).script = l.script ∧
    (resetCounter l).maxFrameSize = l.maxFrameSize :=
  ⟨rfl, rfl, rfl, rfl⟩

/-- C6: BoundedSource limit behavior: (a) once `frameBytes` exceeds
`maxFrameSize` every Read fails with SizeOverflow, unconditionally and
without touching state; (b) at `frameBytes = maxFrameSize` exactly one
byte is requested from the underlying source, the bytes obtained are
appended to the pending buffer and counted; a source error is propagated
with no data, a successfully-obtained byte yields SizeOverflow, and zero
bytes with no error yields `io.ErrNoProgress`. -/
theorem c6_limited_read (l : LimitedReader) (n : Nat) :
    (l.maxFrameSize < l.frameBytes →
      limitedRead l n = ([], some (.frameSizeOverflowErr l.maxFrameSize), l)) ∧
    (l.frameBytes = l.maxFrameSize →
      (limitedRead l n).2.2.buf = l.buf ++ (srcRead l.script 1).1 ∧
      (limitedRead l n).2.2.frameBytes =
        l.frameBytes + ((srcRead l.script 1).1.length : Int) ∧
      (limitedRead l n).2.2.script = (srcRead l.script 1).2.2 ∧
      (limitedRead l n).1 = [] ∧
      (∀ e, (srcRead l.script 1).2.1 = some e → (limitedRead l n).2.1 = some e) ∧
      ((srcRead l.script 1).2.1 = none → (srcRead l.script 1).1 ≠ [] →
        (limitedRead l n).2.1 = some (.frameSizeOverflowErr l.maxFrameSize)) ∧
      ((srcRead l.script 1).2.1 = none → (srcRead l.script 1).1 = [] →
        (limitedRead l n).2.1 = some .noProgress)) := by
  constructor
  · intro h
    unfold limitedRead
    rw [if_pos h]
  · intro h
    unfold limitedRead
    rw [if_neg (by omega), if_pos h]
    rcases hsr : srcRead l.script 1 with ⟨tmp, e, rest⟩
    simp only [hsr]
    cases e with
    | some err =>
      refine ⟨rfl, rfl, rfl, rfl, ?_, ?_, ?_⟩
      · intro e' he'
        simp at he'
        rw [he']
      · intro hnone
        simp at hnone
      · intro hnone
        simp at hnone
    | none =>
      by_cases htmp : tmp.length = 0
      · rw [if_pos htmp]
        refine ⟨rfl, rfl, rfl, rfl, ?_, ?_, ?_⟩
        · intro e' he'
          simp at he'
        · intro _ hne
          exact absurd (List.length_eq_zero.mp htmp) hne
        · intro _ _
          rfl
      · rw [if_neg htmp]
        refine ⟨rfl, rfl, rfl, rfl, ?_, ?_, ?_⟩
        · intro e' he'
          simp at he'
        · intro _ _
          rfl
        · intro _ hnil
          exact absurd (by rw [hnil]; rfl) htmp

/-- C6 witness: both branches at concrete readers — a reader past the
limit, and a reader exactly at the limit over a one-byte source. -/
theorem c6_limited_read_witness :
    limitedRead ⟨[], [], 3, 2⟩ 4 =
      ([], some (.frameSizeOverflowErr 2), ⟨[], [], 3, 2⟩) ∧
    (limitedRead ⟨[([5], none)], [], 2, 2⟩ 4).2.2.buf =
      [] ++ (srcRead [([5], none)] 1).1 ∧
    (limitedRead ⟨[([5], none)], [], 2, 2⟩ 4).2.1 =
      some (.frameSizeOverflowErr 2) :=
  ⟨(c6_limited_read ⟨[], [], 3, 2⟩ 4).1 (by decide),
   ((c6_limited_read ⟨[([5], none)], [], 2, 2⟩ 4).2 rfl).1,
   ((c6_limited_read ⟨[([5], none)], [], 2, 2⟩ 4).2 rfl).2.2.2.2.2.1 rfl (by decide)⟩

/-- C7 counterexample: a stream of ten all-whitespace frames under
`maxFrames = 1` sanitizes entirely to empty frames, yet the first
ReadFrame call returns CountOverflow (the `10 × maxFrames` total-attempt
guard), not `io.EOF` — so "for every input stream whose content sanitizes
entirely to empty frames, the first ReadFrame returns EOF" is false. -/
theorem c7_counterexample :
    (∀ x ∈ (List.replicate 10 (Except.ok [32]) : List (Except Err Bytes)),
      ∃ f, x = .ok f ∧ sanitize .yaml f = []) ∧
    (hlReadFrame scriptedRead
        (initRState (List.replicate 10 (Except.ok [32])) .yaml 1)).1 =
      .error (.frameCountOverflowErr 1) := by
  constructor
  · intro x hx
    have hx' : x = Except.ok [32] := List.eq_of_mem_replicate hx
    exact ⟨[32], hx', by decide⟩
  · decide

/-- C7 (amended): empty-frame elision. Writing a frame that sanitizes to
empty (below the size and count limits) succeeds and changes nothing:
the counter stays and no bytes reach the sink. Reading a stream whose
content sanitizes entirely to empty frames yields `io.EOF` on the first
call, provided the stream holds fewer than `10 × maxFrames` frames
(otherwise the total-attempt guard fires with CountOverflow instead). -/
theorem c7_empty_frame_elision :
    (∀ (σ : Type) (lowWrite : σ → Bytes → Option Err × σ) (st : WState σ)
       (f : Bytes),
      sanitize st.ct f = [] → (f.length : Int) ≤ st.maxFrameSize →
      st.frameCount < st.maxFrames →
      hlWriteFrame lowWrite st f = (none, st)) ∧
    (∀ (ct : FramingType) (m : Int) (stream : List (Except Err Bytes)),
      1 ≤ m →
      (∀ x ∈ stream, ∃ f, x = .ok f ∧ sanitize ct f = []) →
      (stream.length : Int) < m * 10 →
      (hlReadFrame scriptedRead (initRState stream ct m)).1 = .error .eof) := by
  constructor
  · intro σ lowWrite st f hsan hsize hcnt
    exact hlWriteFrame_empty_step lowWrite st f hsize hcnt hsan
  · intro ct m stream hm hall hlen
    unfold hlReadFrame
    rw [if_neg (by show ¬ (m < (0 : Int)); omega)]
    unfold readFrameAux
    refine readFrameAuxF_all_empty ct stream _ _ rfl rfl hall ?_
    show stream.length < ((m * 10 : Int) - 0).toNat
    omega

/-- C7 witness: an all-whitespace frame is elided by a concrete Writer,
and a short all-empty stream reads as EOF immediately. -/
theorem c7_empty_frame_elision_witness :
    hlWriteFrame sinkWriteYAML (initWState [] .yaml 1 100) [32] =
      (none, initWState [] .yaml 1 100) ∧
    (hlReadFrame scriptedRead
        (initRState (List.replicate 2 (Except.ok [32])) .yaml 1)).1 = .error .eof :=
  ⟨(c7_empty_frame_elision).1 Bytes sinkWriteYAML (initWState [] .yaml 1 100) [32]
      (by decide) (by decide) (by decide),
   (c7_empty_frame_elision).2 .yaml 1 (List.replicate 2 (Except.ok [32]))
      (by decide)
      (fun x hx => ⟨[32], List.eq_of_mem_replicate hx, by decide⟩)
      (by decide)⟩

/-- C9 counterexample: a caller-supplied option whose only set field is
the sanitizer has no effect: after applying it over the defaults the
sanitizer is still the built-in one, so "a value set by a later option
overrides an earlier one" fails for the sanitizer (`applyCommon` never
copies the `Sanitizer` field). -/
theorem c9_counterexample :
    (applyOptions defaultReaderOpts
        [⟨0, 0, some (.custom 1), ⟨0, none, none, none⟩⟩]).sanitizer =
      some SanitizerV.defaultSan ∧
    some SanitizerV.defaultSan ≠ some (SanitizerV.custom 1) := by
  decide

/-- C9 (amended): option construction applies caller options in order
over the defaults (`maxFrameSize` 16 MiB, `maxFrames` 1024, the built-in
sanitizer); for `maxFrameSize` and `maxFrames` a non-zero value set by a
later option overrides, and a zero value never overrides — but the
`Sanitizer` field of an option is ignored by `applyCommon`, so the
sanitizer always remains the previously-set (default) one. -/
theorem c9_option_construction :
    defaultReaderOpts.maxFrameSize = 16 * 1024 * 1024 ∧
    defaultReaderOpts.maxFrames = 1024 ∧
    defaultReaderOpts.sanitizer = some .defaultSan ∧
    (∀ o t : ReaderWriterOptionsV,
      (o.maxFrameSize ≠ 0 → (applyCommon o t).maxFrameSize = o.maxFrameSize) ∧
      (o.maxFrameSize = 0 → (applyCommon o t).maxFrameSize = t.maxFrameSize) ∧
      (o.maxFrames ≠ 0 → (applyCommon o t).maxFrames = o.maxFrames) ∧
      (o.maxFrames = 0 → (applyCommon o t).maxFrames = t.maxFrames) ∧
      (applyCommon o t).sanitizer = t.sanitizer) ∧
    (∀ (t : ReaderWriterOptionsV) (opts : List ReaderWriterOptionsV),
      (applyOptions t opts).sanitizer = t.sanitizer) := by
  refine ⟨rfl, rfl, rfl, ?_, ?_⟩
  · intro o t
    refine ⟨?_, ?_, ?_, ?_, rfl⟩ <;> intro h <;> simp [applyCommon, h]
  · intro t opts
    induction opts generalizing t with
    | nil => rfl
    | cons o rest ih =>
      show (applyOptions (applyCommon o t) rest).sanitizer = t.sanitizer
      rw [ih (applyCommon o t)]
      rfl

/-- C9 witness: a later non-zero `maxFrameSize` overrides the default,
and the sanitizer stays at the default through any option list. -/
theorem c9_option_construction_witness :
    (applyCommon ⟨5, 0, some (.custom 2), ⟨0, none, none, none⟩⟩
        defaultReaderOpts).maxFrameSize = 5 ∧
    (applyOptions defaultReaderOpts
        [⟨7, 0, none, ⟨0, none, none, none⟩⟩]).sanitizer =
      defaultReaderOpts.sanitizer :=
  ⟨(c9_option_construction.2.2.2.1 ⟨5, 0, some (.custom 2), ⟨0, none, none, none⟩⟩
      defaultReaderOpts).1 (by decide),
   c9_option_construction.2.2.2.2 defaultReaderOpts
      [⟨7, 0, none, ⟨0, none, none, none⟩⟩]⟩

/-- C10 counterexample: in a state at the frame-count limit
(`frameCount = maxFrames = 1`), an oversized frame (`maxFrameSize = 1`,
frame of 2 bytes) fails with SizeOverflow, not CountOverflow — the size
check precedes the count check, so "WriteFrame fails with CountOverflow
for every input frame" is false. -/
theorem c10_counterexample :
    hlWriteFrame sinkWriteYAML ⟨[], .yaml, 1, 1, 1⟩ [32, 32] =
      (some (.frameSizeOverflowErr 1), ⟨[], .yaml, 1, 1, 1⟩) ∧
    some (Err.frameSizeOverflowErr 1) ≠ some (Err.frameCountOverflowErr 1) :=
  ⟨rfl, by decide⟩

/-- C10 (amended): the high-level Writer checks the frame-count limit
before sanitization and empty-frame elision: in every state where
`frameCount` has reached `maxFrames`, WriteFrame fails with CountOverflow
for every input frame within the size limit — including frames that
sanitize to empty, which below the limit would have been accepted without
writing anything. -/
theorem c10_count_before_elision (lowWrite : σ → Bytes → Option Err × σ)
    (st : WState σ) (f : Bytes)
    (hcnt : st.maxFrames ≤ st.frameCount)
    (hsize : (f.length : Int) ≤ st.maxFrameSize) :
    hlWriteFrame lowWrite st f = (some (.frameCountOverflowErr st.maxFrames), st) :=
  hlWriteFrame_count_overflow lowWrite st f hsize hcnt

/-- C10 witness: an all-whitespace (empty-sanitizing) frame is refused
with CountOverflow at the count limit. -/
theorem c10_count_before_elision_witness :
    hlWriteFrame sinkWriteYAML ⟨[], .yaml, 100, 1, 1⟩ [32] =
      (some (.frameCountOverflowErr 1), ⟨[], .yaml, 100, 1, 1⟩) ∧
    sanitize .yaml [32] = [] :=
  ⟨c10_count_before_elision sinkWriteYAML ⟨[], .yaml, 100, 1, 1⟩ [32]
      (by decide) (by decide), by decide⟩
